import Mathlib

/-!
A verification development for `lib/util/usedPropTypes.js`: the usage-marking
engine that records which `props` fields a React component reads.

The JavaScript source is embedded shallowly: ESTree syntax nodes become an
inductive type (each node carries its source start offset, which stands for
node identity, as the source compares nodes by position), the ESLint ambient
context (scope chain, external component utils, feature gate) becomes an
explicit structure, and the component registry becomes an association list
keyed by source position.  JavaScript property accesses that may yield
`undefined` become `Option`-valued accessors, and `===` comparisons where
one side may be `undefined` use `Option` equality (so that
`undefined === undefined` is `true`, as in JavaScript).
-/

namespace UsedPropTypes

/-- JavaScript literal values, as far as the engine inspects them
(`typeof property.value === 'string'` is the only interesting test). -/
inductive JsValue where
  | str (s : String)
  | num (n : Int)
  | other
deriving Repr, DecidableEq

/-- ESTree nodes.  Every constructor carries the node's source start offset:
the source identifies nodes by position (`arguments[0].start === scope.block.start`),
and in a well-formed tree distinct nodes have distinct starts, so structural
equality of embedded nodes coincides with JavaScript reference equality. -/
inductive Node where
  | identifier (start : Nat) (name : String)
  | literal (start : Nat) (value : JsValue)
  | thisExpression (start : Nat)
  | member (start : Nat) (object : Node) (propNode : Node) (computed : Bool)
  | callExpression (start : Nat) (callee : Node) (arguments : List Node)
  | assignmentExpression (start : Nat) (left : Node) (right : Node)
  | objectPattern (start : Nat) (properties : List Node)
  | patternProperty (start : Nat) (key : Node) (value : Node) (computed : Bool)
  | restElement (start : Nat) (argument : Node)
  | assignmentPattern (start : Nat) (left : Node) (right : Node)
  | variableDeclarator (start : Nat) (id : Node) (init : Option Node)
  | variableDeclaration (start : Nat) (declarations : List Node)
  | arrowFunctionExpression (start : Nat) (params : List Node) (body : Node)
  | functionDeclaration (start : Nat) (params : List Node) (body : Node)
  | functionExpression (start : Nat) (params : List Node) (body : Node)
  | methodDefinition (start : Nat) (kind : String) (key : Node) (value : Node)
  | classDeclaration (start : Nat) (body : List Node)
  | blockStatement (start : Nat) (body : List Node)
  | returnStatement (start : Nat) (argument : Option Node)
  | expressionStatement (start : Nat) (expression : Node)
  | jsxSpreadAttribute (start : Nat) (argument : Node)
  | program (start : Nat) (body : List Node)
deriving Repr

namespace Node

/-- The ESTree `type` string of a node. -/
def typeName : Node → String
  | identifier .. => "Identifier"
  | literal .. => "Literal"
  | thisExpression .. => "ThisExpression"
  | member .. => "MemberExpression"
  | callExpression .. => "CallExpression"
  | assignmentExpression .. => "AssignmentExpression"
  | objectPattern .. => "ObjectPattern"
  | patternProperty .. => "Property"
  | restElement .. => "RestElement"
  | assignmentPattern .. => "AssignmentPattern"
  | variableDeclarator .. => "VariableDeclarator"
  | variableDeclaration .. => "VariableDeclaration"
  | arrowFunctionExpression .. => "ArrowFunctionExpression"
  | functionDeclaration .. => "FunctionDeclaration"
  | functionExpression .. => "FunctionExpression"
  | methodDefinition .. => "MethodDefinition"
  | classDeclaration .. => "ClassDeclaration"
  | blockStatement .. => "BlockStatement"
  | returnStatement .. => "ReturnStatement"
  | expressionStatement .. => "ExpressionStatement"
  | jsxSpreadAttribute .. => "JSXSpreadAttribute"
  | program .. => "Program"

/-- Source start offset (node identity). -/
def start : Node → Nat
  | identifier s .. | literal s .. | thisExpression s | member s .. | callExpression s ..
  | assignmentExpression s .. | objectPattern s .. | patternProperty s .. | restElement s ..
  | assignmentPattern s .. | variableDeclarator s .. | variableDeclaration s ..
  | arrowFunctionExpression s .. | functionDeclaration s .. | functionExpression s ..
  | methodDefinition s .. | classDeclaration s .. | blockStatement s ..
  | returnStatement s .. | expressionStatement s .. | jsxSpreadAttribute s .. | program s .. => s

/-- JS `node.name` (identifiers only; `undefined` otherwise). -/
def name? : Node → Option String
  | identifier _ n => some n
  | _ => none

/-- JS `node.object` (member expressions only). -/
def object? : Node → Option Node
  | member _ o _ _ => some o
  | _ => none

/-- JS `node.property` (member expressions only). -/
def property? : Node → Option Node
  | member _ _ p _ => some p
  | _ => none

/-- JS `node.computed` (falsy, hence `false`, on nodes without the field). -/
def computed : Node → Bool
  | member _ _ _ c => c
  | patternProperty _ _ _ c => c
  | _ => false

/-- JS `node.callee` (call expressions only). -/
def callee? : Node → Option Node
  | callExpression _ c _ => some c
  | _ => none

/-- JS `node.arguments` (call expressions only). -/
def arguments? : Node → Option (List Node)
  | callExpression _ _ a => some a
  | _ => none

/-- JS `node.params` (function-like nodes only). -/
def params? : Node → Option (List Node)
  | arrowFunctionExpression _ p _ => some p
  | functionDeclaration _ p _ => some p
  | functionExpression _ p _ => some p
  | _ => none

/-- JS `node.id` (variable declarators; the embedded function constructors
carry no name, so their `id` is `undefined` here, which the engine only ever
probes for a `properties` field). -/
def id? : Node → Option Node
  | variableDeclarator _ i _ => some i
  | _ => none

/-- JS `node.init` (variable declarators only). -/
def init? : Node → Option Node
  | variableDeclarator _ _ i => i
  | _ => none

/-- JS `node.properties` (object patterns only). -/
def properties? : Node → Option (List Node)
  | objectPattern _ ps => some ps
  | _ => none

/-- JS `node.key` (method definitions and pattern properties). -/
def key? : Node → Option Node
  | methodDefinition _ _ k _ => some k
  | patternProperty _ k _ _ => some k
  | _ => none

/-- JS `node.kind` (method definitions carry their kind; an object
`Property`'s kind is `'init'`). -/
def kind? : Node → Option String
  | methodDefinition _ k _ _ => some k
  | patternProperty .. => some "init"
  | _ => none

/-- JS `node.value` (method definitions and pattern properties). -/
def value? : Node → Option Node
  | methodDefinition _ _ _ v => some v
  | patternProperty _ _ v _ => some v
  | _ => none

/-- JS `node.left` (assignment patterns / expressions). -/
def left? : Node → Option Node
  | assignmentPattern _ l _ => some l
  | assignmentExpression _ l _ => some l
  | _ => none

/-- JS `node.argument` (rest elements only; statement arguments are not
probed by the engine). -/
def argument? : Node → Option Node
  | restElement _ a => some a
  | _ => none

/-- `sourceCode.getText(node)` for the expression fragments the engine runs its
root-name tests on.  Identifiers, `this`, literals and member accesses print as
in the source (without whitespace); other shapes print a placeholder that
cannot match a `props`/`nextProps`/`prevProps` root test. -/
def getText : Node → String
  | .identifier _ n => n
  | .thisExpression _ => "this"
  | .literal _ (.str s) => "\"" ++ s ++ "\""
  | .literal _ (.num n) => toString n
  | .literal _ .other => "null"
  | .member _ o p true => o.getText ++ "[" ++ p.getText ++ "]"
  | .member _ o p false => o.getText ++ "." ++ p.getText
  | .callExpression _ c _ => c.getText ++ "()"
  | n => "<" ++ n.typeName ++ ">"

end Node

/-- `/^props\s*(\.|\[)/` and its `nextProps`/`prevProps` variants: the printer
emits no whitespace, so the `\s*` is vacuous and the test is "the text starts
with the root name followed by `.` or `[`". -/
def directRootTest (root : String) (s : String) : Bool :=
  (root ++ ".").data.isPrefixOf s.data || (root ++ "[").data.isPrefixOf s.data

/-- `DIRECT_PROPS_REGEX.test s`. -/
def isDirectPropsRegex (s : String) : Bool := directRootTest "props" s

/-- `DIRECT_NEXT_PROPS_REGEX.test s`. -/
def isDirectNextPropsRegex (s : String) : Bool := directRootTest "nextProps" s

/-- `DIRECT_PREV_PROPS_REGEX.test s`. -/
def isDirectPrevPropsRegex (s : String) : Bool := directRootTest "prevProps" s

def LIFE_CYCLE_METHODS : List String :=
  ["componentWillReceiveProps", "shouldComponentUpdate", "componentWillUpdate",
   "componentDidUpdate"]

def ASYNC_SAFE_LIFE_CYCLE_METHODS : List String :=
  ["getDerivedStateFromProps", "getSnapshotBeforeUpdate",
   "UNSAFE_componentWillReceiveProps", "UNSAFE_componentWillUpdate"]

/-- The property names of `Object.prototype` (the JS test `name in Object.prototype`). -/
def objectPrototypeNames : List String :=
  ["constructor", "hasOwnProperty", "isPrototypeOf", "propertyIsEnumerable",
   "toLocaleString", "toString", "valueOf",
   "__defineGetter__", "__defineSetter__", "__lookupGetter__", "__lookupSetter__",
   "__proto__"]

/-- JS string truthiness: `undefined` and `""` are falsy. -/
def jsTruthyStr : Option String → Bool
  | none => false
  | some s => s != ""

/-- One entry of the lexical scope chain `context.getScope()`, `scope.upper`, …:
the scope's `block` (a function-like node, or the program for the global scope)
and the block's syntactic parent. -/
structure ScopeEntry where
  block : Node
  blockParent : Option Node
deriving Repr

/-- Modelled from the spec: §6 classifier contract — the external component
classification utils (`utils.*`) consumed by the engine, reduced to the answers
they give at the current traversal position. -/
structure Utils where
  getParentES6Component : Bool
  getParentES5Component : Bool
  inConstructor : Option Node → Bool
  getParentStatelessComponent : Bool
  getParentComponent : Option Node

/-- The ambient state fixed during one handler invocation: the scope chain of
the visited node (innermost first), the external utils' answers, and the
feature gate `checkAsyncSafeLifeCycles` resolved once at engine construction. -/
structure EngineCtx where
  scopes : List ScopeEntry
  utils : Utils
  checkAsyncSafeLifeCycles : Bool

/-- `isPropAttributeName`: the declarator's init is named `props`, `nextProps`
or `prevProps`. -/
def isPropAttributeName (node : Node) : Bool :=
  (node.init?.bind Node.name?) == some "props" ||
  (node.init?.bind Node.name?) == some "nextProps" ||
  (node.init?.bind Node.name?) == some "prevProps"

/-- `inComponentWillReceiveProps`: some enclosing scope's block hangs off a
member whose key is named `componentWillReceiveProps`. -/
def inComponentWillReceiveProps (scopes : List ScopeEntry) : Bool :=
  scopes.any fun sc =>
    (sc.blockParent.bind Node.key? |>.bind Node.name?) == some "componentWillReceiveProps"

/-- The body of `inLifeCycleMethod`, over an explicit scope chain. -/
def inLifeCycleMethodScopes (scopes : List ScopeEntry) (checkAsyncSafeLifeCycles : Bool) :
    Bool :=
  scopes.any fun sc =>
    match sc.blockParent.bind Node.key? with
    | some k =>
      match k.name? with
      | some nm =>
        LIFE_CYCLE_METHODS.contains nm ||
          (checkAsyncSafeLifeCycles && ASYNC_SAFE_LIFE_CYCLE_METHODS.contains nm)
      | none => false
    | none => false

/-- `inLifeCycleMethod(context, checkAsyncSafeLifeCycles)`. -/
def inLifeCycleMethod (ctx : EngineCtx) : Bool :=
  inLifeCycleMethodScopes ctx.scopes ctx.checkAsyncSafeLifeCycles

/-- `isNodeALifeCycleMethod`: a constructor, or a method/property whose key
name is in the (optionally async-safe) lifecycle list. -/
def isNodeALifeCycleMethod (node : Node) (checkAsyncSafeLifeCycles : Bool) : Bool :=
  let nodeKeyName := node.key?.bind Node.name?
  if node.kind? == some "constructor" then true
  else
    match nodeKeyName with
    | some nm =>
      LIFE_CYCLE_METHODS.contains nm ||
        (checkAsyncSafeLifeCycles && ASYNC_SAFE_LIFE_CYCLE_METHODS.contains nm)
    | none => false

/-- `isInLifeCycleMethod`: walks `node.parent` (the explicit ancestor chain)
looking for a lifecycle method/property. -/
def isInLifeCycleMethod (node : Node) (ancestors : List Node)
    (checkAsyncSafeLifeCycles : Bool) : Bool :=
  if (node.typeName == "MethodDefinition" || node.typeName == "Property") &&
      isNodeALifeCycleMethod node checkAsyncSafeLifeCycles then
    true
  else
    match ancestors with
    | p :: rest => isInLifeCycleMethod p rest checkAsyncSafeLifeCycles
    | [] => false

/-- One scope-chain step of `inSetStateUpdater`: the block's parent is a call
whose callee's property is named `setState` and whose first argument starts
where the block starts (i.e. the block is the updater, not the completion
callback). -/
def scopeIsInSetStateUpdater (sc : ScopeEntry) : Bool :=
  match sc.blockParent with
  | some (.callExpression _ callee args) =>
    (callee.property?.bind Node.name?) == some "setState" &&
    (args.head?.map Node.start) == some sc.block.start
  | _ => false

/-- `inSetStateUpdater(context)`. -/
def inSetStateUpdater (ctx : EngineCtx) : Bool :=
  ctx.scopes.any scopeIsInSetStateUpdater

/-- The scope-chain walk of `isPropArgumentInSetStateUpdater`: on the first
scope whose block is the first argument of a `.setState` call with more than
one parameter, compare that second parameter's name with the name of `node`'s
object (JS `===`, where `undefined === undefined` holds). -/
def isPropArgumentInSetStateUpdaterScopes (node : Node) : List ScopeEntry → Bool
  | [] => false
  | sc :: rest =>
    match sc.blockParent with
    | some (.callExpression _ callee args) =>
      if (callee.property?.bind Node.name?) == some "setState" &&
          (args.head?.map Node.start) == some sc.block.start &&
          (args.head?.bind Node.params?).isSome &&
          ((args.head?.bind Node.params?).getD []).length > 1 then
        (((args.head?.bind Node.params?).getD []).get? 1 |>.bind Node.name?) ==
          (node.object?.bind Node.name?)
      else isPropArgumentInSetStateUpdaterScopes node rest
    | _ => isPropArgumentInSetStateUpdaterScopes node rest

/-- `isPropArgumentInSetStateUpdater(context, node)`. -/
def isPropArgumentInSetStateUpdater (ctx : EngineCtx) (node : Node) : Bool :=
  isPropArgumentInSetStateUpdaterScopes node ctx.scopes

/-- `hasSpreadOperator`: the source checks whether the node's first source
token is `...`; in the embedding exactly the rest/spread elements carry such a
token. -/
def hasSpreadOperator (node : Node) : Bool :=
  node.typeName == "RestElement"

/-- `getPropertyName(node, context, utils, checkAsyncSafeLifeCycles)`:
resolves a member access to a field name, to the `__COMPUTED_PROP__` marker,
or to nothing. -/
def getPropertyName (ctx : EngineCtx) (node : Node) (ancestors : List Node) :
    Option String :=
  let isDirectProp := isDirectPropsRegex node.getText
  let isDirectNextProp := isDirectNextPropsRegex node.getText
  let isDirectPrevProp := isDirectPrevPropsRegex node.getText
  let isDirectSetStateProp := isPropArgumentInSetStateUpdater ctx node
  let isInClassComponent :=
    ctx.utils.getParentES6Component || ctx.utils.getParentES5Component
  let isNotInConstructor := !ctx.utils.inConstructor (some node)
  let isNotInLifeCycleMethod := !inLifeCycleMethod ctx
  let isNotInSetStateUpdater := !inSetStateUpdater ctx
  if (isDirectProp || isDirectNextProp || isDirectPrevProp || isDirectSetStateProp) &&
      isInClassComponent && isNotInConstructor && isNotInLifeCycleMethod &&
      isNotInSetStateUpdater then
    none
  else
    let shifted : Option Node :=
      if !isDirectProp && !isDirectNextProp && !isDirectPrevProp && !isDirectSetStateProp
      then ancestors.head?
      else some node
    match shifted with
    | none => none
    | some nd =>
      match nd.property? with
      | none => none
      | some property =>
        match property with
        | .identifier _ nm => if nd.computed then some "__COMPUTED_PROP__" else some nm
        | .member .. => none
        | .literal _ v =>
          match v with
          | .str s => some s
          | _ => if nd.computed then some "__COMPUTED_PROP__" else none
        | _ => if nd.computed then some "__COMPUTED_PROP__" else none

/-- Modelled from the spec: §4.4 marks only "a qualifying property-access
expression"; an access that is the left-hand side of an assignment is a write,
not a read, and is rejected (`ast.isAssignmentLHS`). -/
def isAssignmentLHS (node : Node) (ancestors : List Node) : Bool :=
  match ancestors.head? with
  | some (.assignmentExpression _ l _) => l.start == node.start
  | _ => false

/-- `isPropTypesUsage(node, context, utils, checkAsyncSafeLifeCycles)`. -/
def isPropTypesUsage (ctx : EngineCtx) (node : Node) (ancestors : List Node) : Bool :=
  let isThisPropsUsage :=
    (node.object?.map Node.typeName) == some "ThisExpression" &&
    (node.property?.bind Node.name?) == some "props"
  let isPropsUsage := isThisPropsUsage ||
    (node.object?.bind Node.name?) == some "nextProps" ||
    (node.object?.bind Node.name?) == some "prevProps"
  let isClassUsage :=
    (ctx.utils.getParentES6Component || ctx.utils.getParentES5Component) &&
    (isThisPropsUsage || isPropArgumentInSetStateUpdater ctx node)
  let isStatelessFunctionUsage :=
    (node.object?.bind Node.name?) == some "props" && !isAssignmentLHS node ancestors
  isClassUsage || isStatelessFunctionUsage || (isPropsUsage && inLifeCycleMethod ctx)

/-- One observed read of a property field (`{name, allNames, node}` pushed
into `usedPropTypes`).  Path entries are `Option String` because the JS code
can push `undefined` into `allNames` (a computed step met during the
destructuring path walk). -/
structure UsageRecord where
  name : String
  allNames : List (Option String)
  node : Option Node
deriving Repr

/-- A registry entry for one component (the fields this engine reads or
writes, plus the declared prop types consumed at `Program:exit`). -/
structure Component where
  node : Node
  usedPropTypes : List UsageRecord
  ignoreUnusedPropTypesValidation : Bool
  ignorePropsValidation : Bool
  declaredPropTypes : List (String × Node)
deriving Repr

/-- The external component registry: entries keyed by the owning node's source
position (the external registry identifies nodes by source range). -/
abbrev Registry := List (Nat × Component)

/-- Look up a registry entry by key position. -/
def Registry.lookupK (reg : Registry) (k : Nat) : Option Component :=
  (reg.find? fun e => e.fst == k).map Prod.snd

/-- Modelled from the spec: §6 registry `get(key) -> Component|absent`. -/
def Registry.getC (reg : Registry) (key : Option Node) : Option Component :=
  key.bind fun n => reg.lookupK n.start

/-- The partial field set passed to the registry's merge (`components.set`). -/
structure SetFields where
  usedPropTypes : Option (List UsageRecord)
  ignoreUnusedPropTypesValidation : Option Bool

/-- Merging a partial field set into one component: provided fields overwrite,
absent fields keep their values. -/
def SetFields.apply (f : SetFields) (c : Component) : Component :=
  { c with
    usedPropTypes := f.usedPropTypes.getD c.usedPropTypes
    ignoreUnusedPropTypesValidation :=
      f.ignoreUnusedPropTypesValidation.getD c.ignoreUnusedPropTypesValidation }

/-- Modelled from the spec: §6 registry `merge(key, partialFields)` — "the
engine never constructs a Component from scratch, only merges partial
updates": the entry at `key` is updated with the provided fields, and merging
into an unregistered key leaves the registry unchanged. -/
def Registry.setC (reg : Registry) (key : Node) (fields : SetFields) : Registry :=
  reg.map fun e => if e.fst == key.start then (e.fst, fields.apply e.snd) else e

/-- `mustBeValidated(component)`. -/
def mustBeValidated (component : Option Component) : Bool :=
  match component with
  | some c => !c.ignorePropsValidation
  | none => false

/-- Modelled from the spec: §4.3 "compute the field's declared key name
(supporting renamed bindings, i.e. the schema key may differ from the local
variable name)" (`ast.getKeyValue`): the key of a pattern property (identifier
name or string-literal value), or a rest element's argument name. -/
def getKeyValue (node : Node) : Option String :=
  match node with
  | .patternProperty _ key _ _ =>
    match key with
    | .identifier _ n => some n
    | .literal _ (.str s) => some s
    | _ => none
  | .restElement _ arg => arg.name?
  | _ => none

/-- The destructuring path walk of `markPropTypesAsUsed`: from the marked node,
walk down the member-expression spine collecting `currentNode.property.name`
until the `props` root (or a non-member) is reached; an inner step's name
precedes an outer step's. -/
def walkMemberNames (n : Node) : List (Option String) :=
  match n with
  | .member _ o p _ =>
    if p.name? == some "props" then []
    else walkMemberNames o ++ [p.name?]
  | _ => []

/-- The `case 'destructuring'` loop of `markPropTypesAsUsed`: one usage record
per bound field with a truthy key name; a field with a spread operator or a
computed key sets the suppress flag and breaks out of the loop. -/
def destructuringLoop (node : Node) : List Node → List UsageRecord → Bool →
    List UsageRecord × Bool
  | [], used, ignore => (used, ignore)
  | p :: rest, used, ignore =>
    if hasSpreadOperator p || p.computed then (used, true)
    else
      let propName := getKeyValue p
      let allNames := walkMemberNames node ++ [propName]
      if jsTruthyStr propName then
        destructuringLoop node rest
          (used ++ [({ name := propName.getD "", allNames := allNames,
                       node := some p } : UsageRecord)]) ignore
      else destructuringLoop node rest used ignore

/-- The recording switch of `markPropTypesAsUsed` (`switch (type)`): the
`direct` push, the `destructuring` loop, or no change, producing the updated
usage list and suppress flag from the current ones. -/
def finishResult (ctx : EngineCtx) (node : Node) (ancestors : List Node)
    (name : String) (allNames : List (Option String)) (usageType : Option String)
    (properties : List Node) (used0 : List UsageRecord) (ign0 : Bool) :
    List UsageRecord × Bool :=
  if usageType == some "direct" then
    if objectPrototypeNames.contains name then (used0, ign0)
    else
      let nodeSource := node.getText
      let isDirectProp := isDirectPropsRegex nodeSource ||
        isDirectNextPropsRegex nodeSource || isDirectPrevPropsRegex nodeSource
      let reportedNode :=
        if !isDirectProp && !ctx.utils.inConstructor none &&
            !inComponentWillReceiveProps ctx.scopes then
          ancestors.head?.bind Node.property?
        else node.property?
      (used0 ++ [({ name := name, allNames := allNames,
                    node := reportedNode } : UsageRecord)], ign0)
  else if usageType == some "destructuring" then
    destructuringLoop node properties used0 ign0
  else (used0, ign0)

/-- The tail of `markPropTypesAsUsed` (after the dispatch switch): look up the
owning component, run the recording switch, and merge
`{usedPropTypes, ignoreUnusedPropTypesValidation}` back into the registry at
the component's node (falling back to the marked node when no component is
open). -/
def finishMark (ctx : EngineCtx) (reg : Registry) (node : Node)
    (ancestors : List Node) (name : String) (allNames : List (Option String))
    (usageType : Option String) (properties : List Node) : Registry :=
  let component := reg.getC ctx.utils.getParentComponent
  let used0 := (component.map Component.usedPropTypes).getD []
  let ign0 := (component.map Component.ignoreUnusedPropTypesValidation).getD false
  let result := finishResult ctx node ancestors name allNames usageType properties
    used0 ign0
  reg.setC (match component with | some c => c.node | none => node)
    ⟨some result.fst, some result.snd⟩

/-- The `key && key.value === 'props'`/`key.name === 'props'` test for the
`let {props: {firstname}} = this` self-destructuring form. -/
def thisDestructuringProperty (p : Node) : Bool :=
  match p.key? with
  | none => false
  | some k =>
    (k.name? == some "props" ||
      (match k with | .literal _ (.str s) => s == "props" | _ => false)) &&
    (p.value?.map Node.typeName) == some "ObjectPattern"

/-- The `node.id.properties.some(...)` scan of the declarator case: stop at
the first property that is a self-destructuring (yielding its nested fields)
or, when the declarator is a qualifying flat destructuring, at the first
property (yielding the top-level fields). -/
def declaratorScan (generic : Bool) (idProps : List Node) :
    List Node → Option (List Node)
  | [] => none
  | p :: rest =>
    if thisDestructuringProperty p then
      some ((p.value?.bind Node.properties?).getD [])
    else if generic then some idProps
    else declaratorScan generic idProps rest

/-- The function-like arm of `markPropTypesAsUsed`'s dispatch: pick the
property parameter (the second in a setState updater, else the first) and
treat its pattern fields as a destructuring usage. -/
def markFunctionLike (ctx : EngineCtx) (reg : Registry) (node : Node)
    (ancestors : List Node) (params : List Node) : Registry :=
  if params.length == 0 then
    finishMark ctx reg node ancestors "" [] none []
  else
    let propParam := if inSetStateUpdater ctx then params.get? 1 else params.get? 0
    let properties :=
      match propParam with
      | some (.assignmentPattern _ l _) => (l.properties?).getD []
      | some p => (p.properties?).getD []
      | none => []
    finishMark ctx reg node ancestors "" [] (some "destructuring") properties

/-- `markPropTypesAsUsed(node, parentNames)`: the core recursive marking
procedure.  The explicit `ancestors` chain stands for the `node.parent` links;
an unrecognized node shape throws (`Except.error`), and the chain recursion
for `props.foo.bar` walks up the ancestor chain. -/
def markPropTypesAsUsed (ctx : EngineCtx) (node : Node) (ancestors : List Node)
    (parentNames : List (Option String)) (reg : Registry) :
    Except String Registry :=
  match node with
  | .member .. =>
    let name := getPropertyName ctx node ancestors
    if jsTruthyStr name then
      let nameS := name.getD ""
      let allNames := parentNames ++ [some nameS]
      let recursed : Except String Registry :=
        match ancestors with
        | parent :: rest =>
          if parent.typeName == "MemberExpression" &&
              (parent.object?.map Node.start) == some node.start then
            markPropTypesAsUsed ctx parent rest allNames reg
          else .ok reg
        | [] => .ok reg
      match recursed with
      | .error e => .error e
      | .ok reg1 =>
        let usageType := if nameS != "__COMPUTED_PROP__" then some "direct" else none
        .ok (finishMark ctx reg1 node ancestors nameS allNames usageType [])
    else
      match (ancestors.head?.bind Node.id?).bind Node.properties? with
      | some props =>
        if props.length != 0 && jsTruthyStr (props.head?.bind getKeyValue) then
          .ok (finishMark ctx reg node ancestors "" [] (some "destructuring") props)
        else .ok (finishMark ctx reg node ancestors "" [] none [])
      | none => .ok (finishMark ctx reg node ancestors "" [] none [])
  | .arrowFunctionExpression _ params _ =>
    .ok (markFunctionLike ctx reg node ancestors params)
  | .functionDeclaration _ params _ =>
    .ok (markFunctionLike ctx reg node ancestors params)
  | .functionExpression _ params _ =>
    .ok (markFunctionLike ctx reg node ancestors params)
  | .variableDeclarator .. =>
    let idProps := (node.id?.bind Node.properties?).getD []
    let generic := isPropAttributeName node &&
      (ctx.utils.getParentStatelessComponent ||
        isInLifeCycleMethod node ancestors ctx.checkAsyncSafeLifeCycles)
    match declaratorScan generic idProps idProps with
    | some props =>
      .ok (finishMark ctx reg node ancestors "" [] (some "destructuring") props)
    | none => .ok (finishMark ctx reg node ancestors "" [] none [])
  | _ => .error (node.typeName ++ " ASTNodes are not handled by markPropTypesAsUsed")

/-- Scope-creating blocks: function-like nodes and the program (module scope). -/
def isScopeBlock (n : Node) : Bool :=
  n.typeName == "ArrowFunctionExpression" || n.typeName == "FunctionDeclaration" ||
  n.typeName == "FunctionExpression" || n.typeName == "Program"

/-- The scope entries found on a parent chain (innermost first): each
scope-creating block paired with its syntactic parent. -/
def scopesFrom : List Node → List ScopeEntry
  | [] => []
  | n :: rest =>
    if isScopeBlock n then ⟨n, rest.head?⟩ :: scopesFrom rest else scopesFrom rest

/-- `context.getScope()` with its `upper` chain, at a visited node; at a
function node this starts with that function's own scope. -/
def scopesAt (node : Node) (ancestors : List Node) : List ScopeEntry :=
  scopesFrom (node :: ancestors)

/-- `markDestructuredFunctionArgumentsAsUsed(node)`: mark when the property
parameter is a destructuring pattern and the function (or its parent) is a
registered component. -/
def markDestructuredFunctionArgumentsAsUsed (ctx : EngineCtx) (reg : Registry)
    (node : Node) (ancestors : List Node) : Except String Registry :=
  let param := if (node.params?).isSome && inSetStateUpdater ctx then
      (node.params?.getD []).get? 1
    else (node.params?.getD []).get? 0
  let destructuring :=
    match param with
    | some p => p.typeName == "ObjectPattern" ||
        (p.typeName == "AssignmentPattern" &&
          (p.left?.map Node.typeName) == some "ObjectPattern")
    | none => false
  if destructuring &&
      ((reg.getC (some node)).isSome || (reg.getC ancestors.head?).isSome) then
    markPropTypesAsUsed ctx node ancestors [] reg
  else .ok reg

/-- `handleSetStateUpdater(node)`: mark a confirmed setState updater with at
least two parameters. -/
def handleSetStateUpdater (ctx : EngineCtx) (reg : Registry) (node : Node)
    (ancestors : List Node) : Except String Registry :=
  if (node.params?).isNone || (node.params?.getD []).length < 2 ||
      !inSetStateUpdater ctx then
    .ok reg
  else markPropTypesAsUsed ctx node ancestors [] reg

/-- `handleFunctionLikeExpressions(node)`: the updater check, then the
destructured-parameter check. -/
def handleFunctionLikeExpressions (ctx : EngineCtx) (reg : Registry) (node : Node)
    (ancestors : List Node) : Except String Registry :=
  match handleSetStateUpdater ctx reg node ancestors with
  | .error e => .error e
  | .ok reg1 => markDestructuredFunctionArgumentsAsUsed ctx reg1 node ancestors

/-- Modelled from the spec: §4.4 "every declared-schema entry whose declaration
value is itself a function (a custom validator)" (`astUtil.isFunctionLikeExpression`). -/
def isFunctionLikeExpression (node : Node) : Bool :=
  node.typeName == "FunctionExpression" || node.typeName == "ArrowFunctionExpression"

/-- `handleCustomValidators(component)`: re-enter marking on each
function-valued declared prop type. -/
def handleCustomValidators (ctx : EngineCtx) (component : Component)
    (reg : Registry) : Except String Registry :=
  component.declaredPropTypes.foldlM
    (fun r kv =>
      match kv.snd.value? with
      | some v =>
        if isFunctionLikeExpression v then markPropTypesAsUsed ctx v [] [] r
        else .ok r
      | none => .ok r)
    reg

/-- A source of the external utils' answers at each traversal position. -/
abbrev UtilsAt := Node → List Node → Utils

/-- One traversal step: dispatch the visited node to its registered handler
(the five observation points of the returned instruction table). -/
def visitNode (U : UtilsAt) (checkAsyncSafeLifeCycles : Bool) (reg : Registry)
    (node : Node) (ancestors : List Node) : Except String Registry :=
  let ctx : EngineCtx :=
    ⟨scopesAt node ancestors, U node ancestors, checkAsyncSafeLifeCycles⟩
  match node with
  | .variableDeclarator _ id init =>
    let destructuring := init.isSome && id.typeName == "ObjectPattern"
    let thisDestructuring :=
      destructuring && (init.map Node.typeName) == some "ThisExpression"
    let statelessDestructuring := destructuring && isPropAttributeName node &&
      (ctx.utils.getParentStatelessComponent ||
        isInLifeCycleMethod node ancestors ctx.checkAsyncSafeLifeCycles)
    if !thisDestructuring && !statelessDestructuring then .ok reg
    else markPropTypesAsUsed ctx node ancestors [] reg
  | .functionDeclaration .. => handleFunctionLikeExpressions ctx reg node ancestors
  | .arrowFunctionExpression .. => handleFunctionLikeExpressions ctx reg node ancestors
  | .functionExpression .. => handleFunctionLikeExpressions ctx reg node ancestors
  | .jsxSpreadAttribute .. =>
    let component := reg.getC ctx.utils.getParentComponent
    .ok (reg.setC (match component with | some c => c.node | none => node)
      ⟨none, some true⟩)
  | .member .. =>
    if isPropTypesUsage ctx node ancestors then
      markPropTypesAsUsed ctx node ancestors [] reg
    else .ok reg
  | .objectPattern _ props =>
    match ancestors with
    | p1 :: p2 :: rest =>
      if isNodeALifeCycleMethod p2 ctx.checkAsyncSafeLifeCycles &&
          props.length > 0 then
        markPropTypesAsUsed ctx p1 (p2 :: rest) [] reg
      else .ok reg
    | _ => .ok reg
  | _ => .ok reg

mutual

/-- Depth-first preorder traversal (ESLint's enter order): visit the node,
then its children left to right, with the explicit ancestor chain. -/
def runNode (U : UtilsAt) (async : Bool) (node : Node) (ancestors : List Node)
    (reg : Registry) : Except String Registry :=
  match visitNode U async reg node ancestors with
  | .error e => .error e
  | .ok reg1 =>
    match node with
    | .identifier .. => .ok reg1
    | .literal .. => .ok reg1
    | .thisExpression .. => .ok reg1
    | .member _ o p _ =>
      match runNode U async o (node :: ancestors) reg1 with
      | .error e => .error e
      | .ok r => runNode U async p (node :: ancestors) r
    | .callExpression _ c args =>
      match runNode U async c (node :: ancestors) reg1 with
      | .error e => .error e
      | .ok r => runSeq U async args (node :: ancestors) r
    | .assignmentExpression _ l r2 =>
      match runNode U async l (node :: ancestors) reg1 with
      | .error e => .error e
      | .ok r => runNode U async r2 (node :: ancestors) r
    | .objectPattern _ ps => runSeq U async ps (node :: ancestors) reg1
    | .patternProperty _ k v _ =>
      match runNode U async k (node :: ancestors) reg1 with
      | .error e => .error e
      | .ok r => runNode U async v (node :: ancestors) r
    | .restElement _ a => runNode U async a (node :: ancestors) reg1
    | .assignmentPattern _ l r2 =>
      match runNode U async l (node :: ancestors) reg1 with
      | .error e => .error e
      | .ok r => runNode U async r2 (node :: ancestors) r
    | .variableDeclarator _ i init =>
      match runNode U async i (node :: ancestors) reg1 with
      | .error e => .error e
      | .ok r =>
        match init with
        | some n2 => runNode U async n2 (node :: ancestors) r
        | none => .ok r
    | .variableDeclaration _ ds => runSeq U async ds (node :: ancestors) reg1
    | .arrowFunctionExpression _ ps b =>
      match runSeq U async ps (node :: ancestors) reg1 with
      | .error e => .error e
      | .ok r => runNode U async b (node :: ancestors) r
    | .functionDeclaration _ ps b =>
      match runSeq U async ps (node :: ancestors) reg1 with
      | .error e => .error e
      | .ok r => runNode U async b (node :: ancestors) r
    | .functionExpression _ ps b =>
      match runSeq U async ps (node :: ancestors) reg1 with
      | .error e => .error e
      | .ok r => runNode U async b (node :: ancestors) r
    | .methodDefinition _ _ k v =>
      match runNode U async k (node :: ancestors) reg1 with
      | .error e => .error e
      | .ok r => runNode U async v (node :: ancestors) r
    | .classDeclaration _ b => runSeq U async b (node :: ancestors) reg1
    | .blockStatement _ b => runSeq U async b (node :: ancestors) reg1
    | .returnStatement _ a =>
      match a with
      | some n2 => runNode U async n2 (node :: ancestors) reg1
      | none => .ok reg1
    | .expressionStatement _ e2 => runNode U async e2 (node :: ancestors) reg1
    | .jsxSpreadAttribute _ a => runNode U async a (node :: ancestors) reg1
    | .program _ b => runSeq U async b (node :: ancestors) reg1

/-- Traverse a child list in order, threading the registry. -/
def runSeq (U : UtilsAt) (async : Bool) (nodes : List Node)
    (ancestors : List Node) (reg : Registry) : Except String Registry :=
  match nodes with
  | [] => .ok reg
  | n :: rest =>
    match runNode U async n ancestors reg with
    | .error e => .error e
    | .ok r => runSeq U async rest ancestors r

end

/-- The `Program:exit` handler: for every registered component that must be
validated (snapshot order), re-enter marking on each function-valued declared
prop type (custom validator); the ambient scope is the global scope. -/
def programExit (U : UtilsAt) (async : Bool) (tree : Node) (reg : Registry) :
    Except String Registry :=
  let ctx : EngineCtx := ⟨[⟨tree, none⟩], U tree [], async⟩
  (reg.filter fun e => mustBeValidated (some e.snd)).foldlM
    (fun r e => handleCustomValidators ctx e.snd r) reg

/-- One full engine run over a source unit: the registered traversal handlers
in preorder, then `Program:exit`. -/
def runTraversal (U : UtilsAt) (async : Bool) (tree : Node) (reg : Registry) :
    Except String Registry :=
  match runNode U async tree [] reg with
  | .error e => .error e
  | .ok reg1 => programExit U async tree reg1

/-- The recorded usage paths at a registry key. -/
def Registry.pathsAt (reg : Registry) (k : Nat) :
    Option (List (List (Option String))) :=
  (reg.lookupK k).map fun c => c.usedPropTypes.map UsageRecord.allNames

/-- The recorded usage lists at a registry key. -/
def Registry.usedAt (reg : Registry) (k : Nat) : Option (List UsageRecord) :=
  (reg.lookupK k).map Component.usedPropTypes

/-- The suppress flag at a registry key. -/
def Registry.flagAt (reg : Registry) (k : Nat) : Option Bool :=
  (reg.lookupK k).map Component.ignoreUnusedPropTypesValidation

/-- The recorded paths at a key, out of a full run's result. -/
def runPathsAt (res : Except String Registry) (k : Nat) :
    Option (List (List (Option String))) :=
  match res with
  | .ok reg => reg.pathsAt k
  | .error _ => none

/-- The suppress flag at a key, out of a full run's result. -/
def runFlagAt (res : Except String Registry) (k : Nat) : Option Bool :=
  match res with
  | .ok reg => reg.flagAt k
  | .error _ => none

/-- A registry is well-keyed when every entry's component node sits at the
entry's key position (the registry keys components by their own node). -/
def Registry.wellKeyed (reg : Registry) : Bool :=
  reg.all fun e => e.snd.node.start == e.fst

/-- Whether the chain-continuation guard of the member arm holds: the parent
is a member access whose object is exactly the current node. -/
def chainContinues (node : Node) (ancestors : List Node) : Bool :=
  match ancestors with
  | parent :: _ =>
    parent.typeName == "MemberExpression" &&
      (parent.object?.map Node.start) == some node.start
  | [] => false

/-- One engine step from `reg` to `reg'`, seen through the three state
invariants: registered keys are preserved, well-keyedness is preserved, and
the suppress flags are monotone provided the owning-component lookup (`pk`)
being absent implies the candidate marked nodes (`cands`) are unregistered. -/
def StateStep (pk : Option Node) (cands : List Node) (reg reg' : Registry) :
    Prop :=
  (∀ k, (reg'.lookupK k).isSome = (reg.lookupK k).isSome) ∧
  (reg.wellKeyed = true → reg'.wellKeyed = true) ∧
  (reg.wellKeyed = true →
    (reg.getC pk = none → ∀ m ∈ cands, reg.lookupK m.start = none) →
    ∀ k, reg.flagAt k = some true → reg'.flagAt k = some true)

/-- The stack of member accesses continuing a chain upward with the given
names (innermost enclosing access first). -/
def chainNodes (base : Node) : List String → List Node
  | [] => []
  | n :: rest =>
    Node.member 0 base (.identifier 0 n) false ::
      chainNodes (Node.member 0 base (.identifier 0 n) false) rest

/-- The usage records a direct chain appends, in push order (the deepest
link's record, carrying the full path, comes first). -/
def chainRecords (acc : List (Option String)) : List String → List UsageRecord
  | [] => []
  | n :: rest =>
    chainRecords (acc ++ [some n]) rest ++
      [{ name := n, allNames := acc ++ [some n],
         node := some (Node.identifier 0 n) }]

/-- The stop statement closing a chain's ancestor chain (any non-member
parent stops the chain continuation). -/
def chainStop : Node := .expressionStatement 0 (.identifier 0 "end")

/-- The usage record one bound field of a flat (declarator-level)
destructuring produces: one record per field with a truthy key name. -/
def declRecord (p : Node) : Option UsageRecord :=
  if jsTruthyStr (getKeyValue p) then
    some { name := (getKeyValue p).getD "", allNames := [getKeyValue p],
           node := some p }
  else none

/-- The spec's wording of the updater condition (§4.1): the scope's block is
positionally the first argument of a call whose callee is a
`.setState`-shaped member access. -/
def specUpdaterScope (sc : ScopeEntry) : Prop :=
  match sc.blockParent with
  | some (.callExpression _ callee args) =>
    (callee.property?.bind Node.name?) = some "setState" ∧
      args.head? = some sc.block
  | _ => False

/-- Start positions identify the first argument: within the scope's parent
call, the first argument starts where the block starts iff it is the block
(true in every well-formed tree, where distinct nodes have distinct starts). -/
def startFaithful (sc : ScopeEntry) : Prop :=
  match sc.blockParent with
  | some (.callExpression _ _ args) =>
    (args.head?.map Node.start) = some sc.block.start ↔
      args.head? = some sc.block
  | _ => True

/-!  ### Concrete scenarios

Small source units used by the end-to-end claims.  Every node carries a
distinct start offset, as in a real parse. -/

/-- `this.props.name`, read inside `render`. -/
def renderMember : Node :=
  .member 7 (.member 8 (.thisExpression 9) (.identifier 10 "props") false)
    (.identifier 11 "name") false

/-- `render() { return this.props.name; }` as a class component. -/
def renderClass : Node :=
  .classDeclaration 1 [.methodDefinition 2 "method" (.identifier 3 "render")
    (.functionExpression 4 []
      (.blockStatement 5 [.returnStatement 6 (some renderMember)]))]

def renderProg : Node := .program 0 [renderClass]

/-- External utils for the `render` scenario: a class component is open. -/
def renderUtils : UtilsAt := fun _ _ =>
  ⟨true, false, fun _ => false, false, some renderClass⟩

def renderReg : Registry := [(1, ⟨renderClass, [], false, false, []⟩)]

/-- `this.props.config.theme`, read inside `componentWillReceiveProps`. -/
def cwrpMember : Node :=
  .member 27 (.member 28 (.member 29 (.thisExpression 30)
    (.identifier 31 "props") false) (.identifier 32 "config") false)
    (.identifier 33 "theme") false

def cwrpClass : Node :=
  .classDeclaration 21 [.methodDefinition 22 "method"
    (.identifier 23 "componentWillReceiveProps")
    (.functionExpression 24 []
      (.blockStatement 25 [.expressionStatement 26 cwrpMember]))]

def cwrpProg : Node := .program 20 [cwrpClass]

def cwrpUtils : UtilsAt := fun _ _ =>
  ⟨true, false, fun _ => false, false, some cwrpClass⟩

def cwrpReg : Registry := [(21, ⟨cwrpClass, [], false, false, []⟩)]

/-- A registered stateless (arrow) component. -/
def statelessComp : Node := .arrowFunctionExpression 43 [] (.identifier 44 "zz")

def statelessUtils : Utils :=
  ⟨false, false, fun _ => false, true, some statelessComp⟩

def statelessCtx : EngineCtx :=
  ⟨[⟨statelessComp, some (.program 45 [])⟩], statelessUtils, true⟩

def statelessReg : Registry := [(43, ⟨statelessComp, [], false, false, []⟩)]

/-- The same registry with the suppress flag already `true`. -/
def flagReg : Registry := [(43, ⟨statelessComp, [], true, false, []⟩)]

/-- `props[x]`: a member access with a non-literal computed key. -/
def computedAccess : Node :=
  .member 40 (.identifier 41 "props") (.identifier 42 "x") true

/-- `let {...rest, b} = props`: a destructuring whose first field is a
spread. -/
def spreadFirstDecl : Node :=
  .variableDeclarator 56
    (.objectPattern 50 [.restElement 51 (.identifier 52 "rest"),
      .patternProperty 53 (.identifier 54 "b") (.identifier 55 "b") false])
    (some (.identifier 57 "props"))

/-- The four admitted dispatch shapes of `markPropTypesAsUsed` (member
accesses, the three function-like forms, and variable declarators). -/
def isAdmittedMarkShape (node : Node) : Bool :=
  node.typeName == "MemberExpression" ||
  node.typeName == "ArrowFunctionExpression" ||
  node.typeName == "FunctionDeclaration" ||
  node.typeName == "FunctionExpression" ||
  node.typeName == "VariableDeclarator"

/-- The `a` field and the `...rest` field of `let {a, ...rest} = props`. -/
def aField : Node :=
  .patternProperty 61 (.identifier 62 "a") (.identifier 63 "a") false

def restField : Node := .restElement 64 (.identifier 65 "rest")

/-- The updater argument of `this.setState((state, props) => props.x, () => props.y)`. -/
def setStateUpdaterFn : Node :=
  .arrowFunctionExpression 76 [.identifier 77 "state", .identifier 78 "props"]
    (.member 80 (.identifier 81 "props") (.identifier 82 "x") false)

/-- The completion-callback argument of the same `setState` call. -/
def setStateCallbackFn : Node :=
  .arrowFunctionExpression 83 []
    (.member 84 (.identifier 85 "props") (.identifier 86 "y") false)

def setStateCall : Node :=
  .callExpression 74 (.member 75 (.thisExpression 87)
    (.identifier 88 "setState") false) [setStateUpdaterFn, setStateCallbackFn]

def setStateMethodFn : Node :=
  .functionExpression 73 []
    (.blockStatement 89 [.expressionStatement 90 setStateCall])

def setStateClass : Node :=
  .classDeclaration 71 [.methodDefinition 72 "method" (.identifier 91 "doIt")
    setStateMethodFn]

def setStateProg : Node := .program 70 [setStateClass]

def setStateUtilsAt : UtilsAt := fun _ _ =>
  ⟨true, false, fun _ => false, false, some setStateClass⟩

def setStateReg : Registry := [(71, ⟨setStateClass, [], false, false, []⟩)]

/-- The ambient context at the updater argument (its own scope innermost). -/
def updaterCtx : EngineCtx :=
  ⟨scopesAt setStateUpdaterFn [setStateCall, .expressionStatement 90 setStateCall,
    .blockStatement 89 [.expressionStatement 90 setStateCall], setStateMethodFn,
    .methodDefinition 72 "method" (.identifier 91 "doIt") setStateMethodFn,
    setStateClass, setStateProg],
   ⟨true, false, fun _ => false, false, some setStateClass⟩, true⟩

/-- The ambient context at the callback argument (its own scope innermost). -/
def callbackCtx : EngineCtx :=
  ⟨scopesAt setStateCallbackFn [setStateCall, .expressionStatement 90 setStateCall,
    .blockStatement 89 [.expressionStatement 90 setStateCall], setStateMethodFn,
    .methodDefinition 72 "method" (.identifier 91 "doIt") setStateMethodFn,
    setStateClass, setStateProg],
   ⟨true, false, fun _ => false, false, some setStateClass⟩, true⟩

/-- A confirmed updater (first argument of a `.setState` call) with a
destructuring pattern in second parameter position. -/
def selUpdaterFn : Node :=
  .arrowFunctionExpression 100 [.identifier 101 "state",
    .objectPattern 102 [.patternProperty 103 (.identifier 104 "q")
      (.identifier 105 "q") false]] (.identifier 106 "body")

def selCall : Node :=
  .callExpression 107 (.member 108 (.thisExpression 109)
    (.identifier 110 "setState") false) [selUpdaterFn]

def selUpdCtx : EngineCtx :=
  ⟨[⟨selUpdaterFn, some selCall⟩], statelessUtils, true⟩

/-- A plain function with a destructuring pattern in first parameter position. -/
def selPlainFn : Node :=
  .arrowFunctionExpression 120 [.objectPattern 121 [.patternProperty 122
    (.identifier 123 "r") (.identifier 124 "r") false], .identifier 125 "z"]
    (.identifier 126 "body")

def selPlainCtx : EngineCtx := ⟨[], statelessUtils, true⟩

/-- A spread UI attribute, visited inside the `render` class component. -/
def jsxNode : Node := .jsxSpreadAttribute 130 (.identifier 131 "stuff")

theorem lookupK_setC (reg : Registry) (key : Node) (f : SetFields) (k : Nat) :
    (reg.setC key f).lookupK k =
      if k = key.start then (reg.lookupK k).map f.apply
      else reg.lookupK k := by
  have hg : (fun e : Nat × Component => e.fst == k) ∘
      (fun e : Nat × Component =>
        if e.fst == key.start then (e.fst, f.apply e.snd) else e) =
      fun e : Nat × Component => e.fst == k := by
    funext e
    by_cases h : e.fst = key.start <;> simp [h]
  simp only [Registry.setC, Registry.lookupK, List.find?_map, hg]
  cases hfind : reg.find? (fun e => e.fst == k) with
  | none => simp [Registry.lookupK, hfind]
  | some e =>
    have hk := List.find?_some hfind
    have hk' : e.fst = k := by simpa using hk
    by_cases h2 : k = key.start
    · subst h2
      simp [Registry.lookupK, hfind, hk']
    · have hne : ¬(e.fst = key.start) := by rw [hk']; exact h2
      simp [Registry.lookupK, hfind, hne, h2]

theorem lookupK_setC_other (reg : Registry) (key : Node) (f : SetFields) (k : Nat)
    (h : k ≠ key.start) : (reg.setC key f).lookupK k = reg.lookupK k := by
  simp [lookupK_setC, h]

theorem lookupK_setC_isSome (reg : Registry) (key : Node) (f : SetFields) (k : Nat) :
    ((reg.setC key f).lookupK k).isSome = (reg.lookupK k).isSome := by
  by_cases h : k = key.start <;> simp [lookupK_setC, h]

theorem wellKeyed_lookupK {reg : Registry} {k : Nat} {c : Component}
    (hw : reg.wellKeyed = true) (h : reg.lookupK k = some c) :
    c.node.start = k := by
  simp only [Registry.lookupK] at h
  cases hfind : reg.find? (fun e => e.fst == k) with
  | none => simp [hfind] at h
  | some e =>
    have hk := List.find?_some hfind
    have hmem := List.mem_of_find?_eq_some hfind
    have hall := (List.all_eq_true.mp hw) e hmem
    simp [hfind] at h
    simp at hall hk
    rw [h] at hall
    omega

theorem wellKeyed_setC (reg : Registry) (key : Node) (f : SetFields)
    (hw : reg.wellKeyed = true) : (reg.setC key f).wellKeyed = true := by
  simp only [Registry.wellKeyed, Registry.setC, List.all_map, List.all_eq_true] at hw ⊢
  intro e he
  have hthis := hw e he
  simp at hthis
  by_cases h : e.fst = key.start <;>
    simp [Function.comp, h, SetFields.apply, hthis]

theorem destructuringLoop_snd_true (node : Node) (ps : List Node)
    (used : List UsageRecord) :
    (destructuringLoop node ps used true).snd = true := by
  induction ps generalizing used with
  | nil => rfl
  | cons p rest ih =>
    simp only [destructuringLoop]
    by_cases h1 : (hasSpreadOperator p || p.computed) = true
    · simp [h1]
    · simp only [h1]
      by_cases h2 : jsTruthyStr (getKeyValue p) = true <;> simp [h2, ih]

theorem finishResult_snd_mono (ctx : EngineCtx) (node : Node)
    (ancestors : List Node) (name : String) (allNames : List (Option String))
    (usageType : Option String) (properties : List Node)
    (used0 : List UsageRecord) :
    (finishResult ctx node ancestors name allNames usageType properties
      used0 true).snd = true := by
  simp only [finishResult]
  by_cases h1 : usageType == some "direct"
  · simp [h1]
    split <;> simp
  · by_cases h2 : usageType == some "destructuring" <;>
      simp [h1, h2, destructuringLoop_snd_true]

theorem finishResult_noop (ctx : EngineCtx) (node : Node) (ancestors : List Node)
    (name : String) (allNames : List (Option String)) (usageType : Option String)
    (properties : List Node) (used0 : List UsageRecord) (ign0 : Bool)
    (h : usageType = none ∨
      (usageType = some "direct" ∧ objectPrototypeNames.contains name = true)) :
    finishResult ctx node ancestors name allNames usageType properties used0 ign0
      = (used0, ign0) := by
  rcases h with h | ⟨h1, h2⟩
  · subst h; simp [finishResult]
  · subst h1
    have h2m : name ∈ objectPrototypeNames := by simpa using h2
    simp [finishResult, h2m]

theorem apply_self (c : Component) :
    SetFields.apply ⟨some c.usedPropTypes, some c.ignoreUnusedPropTypesValidation⟩ c
      = c := rfl

theorem finishMark_lookupK_isSome (ctx : EngineCtx) (reg : Registry) (node : Node)
    (ancestors : List Node) (name : String) (allNames : List (Option String))
    (usageType : Option String) (properties : List Node) (k : Nat) :
    ((finishMark ctx reg node ancestors name allNames usageType
        properties).lookupK k).isSome = (reg.lookupK k).isSome := by
  simp only [finishMark]
  exact lookupK_setC_isSome _ _ _ _

theorem finishMark_wellKeyed (ctx : EngineCtx) (reg : Registry) (node : Node)
    (ancestors : List Node) (name : String) (allNames : List (Option String))
    (usageType : Option String) (properties : List Node)
    (hw : reg.wellKeyed = true) :
    (finishMark ctx reg node ancestors name allNames usageType
      properties).wellKeyed = true := by
  simp only [finishMark]
  exact wellKeyed_setC _ _ _ hw

theorem finishMark_flag_mono (ctx : EngineCtx) (reg : Registry) (node : Node)
    (ancestors : List Node) (name : String) (allNames : List (Option String))
    (usageType : Option String) (properties : List Node) (k : Nat)
    (hw : reg.wellKeyed = true)
    (hcoh : reg.getC ctx.utils.getParentComponent = none →
      reg.lookupK node.start = none)
    (hk : reg.flagAt k = some true) :
    (finishMark ctx reg node ancestors name allNames usageType
      properties).flagAt k = some true := by
  simp only [finishMark]
  cases hcomp : reg.getC ctx.utils.getParentComponent with
  | none =>
    have hnone := hcoh hcomp
    simp only [hcomp]
    by_cases hkn : k = node.start
    · exfalso
      rw [hkn] at hk
      simp [Registry.flagAt, hnone] at hk
    · simpa [Registry.flagAt, lookupK_setC_other _ _ _ _ hkn] using hk
  | some c =>
    cases hpk : ctx.utils.getParentComponent with
    | none => simp [Registry.getC, hpk] at hcomp
    | some p =>
      have hlook : reg.lookupK p.start = some c := by
        simpa [Registry.getC, hpk] using hcomp
      have hcnode : c.node.start = p.start := wellKeyed_lookupK hw hlook
      simp only [hcomp]
      by_cases hkp : k = p.start
      · subst hkp
        have hcflag : c.ignoreUnusedPropTypesValidation = true := by
          simp [Registry.flagAt, hlook] at hk
          exact hk
        rw [Registry.flagAt, lookupK_setC, hcnode.symm]
        simp [hlook, hcnode, SetFields.apply, hcomp, hcflag,
          finishResult_snd_mono]
      · have hkc : k ≠ c.node.start := by rw [hcnode]; exact hkp
        simpa [Registry.flagAt, lookupK_setC_other _ _ _ _ hkc] using hk

theorem finishMark_noop (ctx : EngineCtx) (reg : Registry) (node : Node)
    (ancestors : List Node) (name : String) (allNames : List (Option String))
    (usageType : Option String) (properties : List Node)
    (hw : reg.wellKeyed = true)
    (hcoh : reg.getC ctx.utils.getParentComponent = none →
      reg.lookupK node.start = none)
    (h : usageType = none ∨
      (usageType = some "direct" ∧ objectPrototypeNames.contains name = true)) :
    ∀ k, (finishMark ctx reg node ancestors name allNames usageType
      properties).lookupK k = reg.lookupK k := by
  intro k
  simp only [finishMark]
  cases hcomp : reg.getC ctx.utils.getParentComponent with
  | none =>
    have hnone := hcoh hcomp
    simp only [hcomp]
    by_cases hkn : k = node.start
    · rw [hkn, lookupK_setC]
      simp [hnone]
    · exact lookupK_setC_other _ _ _ _ hkn
  | some c =>
    cases hpk : ctx.utils.getParentComponent with
    | none => simp [Registry.getC, hpk] at hcomp
    | some p =>
      have hlook : reg.lookupK p.start = some c := by
        simpa [Registry.getC, hpk] using hcomp
      have hcnode : c.node.start = p.start := wellKeyed_lookupK hw hlook
      simp only [hcomp]
      rw [finishResult_noop ctx node ancestors name allNames usageType properties
        _ _ h]
      by_cases hkp : k = p.start
      · subst hkp
        rw [lookupK_setC, hcnode.symm]
        simp [hlook, hcnode, apply_self]
      · have hkc : k ≠ c.node.start := by rw [hcnode]; exact hkp
        exact lookupK_setC_other _ _ _ _ hkc

theorem lookupK_none_of_isSome_eq {r1 r2 : Registry} {k : Nat}
    (h : (r1.lookupK k).isSome = (r2.lookupK k).isSome)
    (h2 : r1.lookupK k = none) : r2.lookupK k = none := by
  cases hx : r2.lookupK k with
  | none => rfl
  | some c => rw [hx, h2] at h; simp at h

theorem markFunctionLike_lookupK_isSome (ctx : EngineCtx) (reg : Registry)
    (node : Node) (ancestors : List Node) (params : List Node) (k : Nat) :
    ((markFunctionLike ctx reg node ancestors params).lookupK k).isSome
      = (reg.lookupK k).isSome := by
  simp only [markFunctionLike]
  split <;> apply finishMark_lookupK_isSome

theorem markFunctionLike_wellKeyed (ctx : EngineCtx) (reg : Registry)
    (node : Node) (ancestors : List Node) (params : List Node)
    (hw : reg.wellKeyed = true) :
    (markFunctionLike ctx reg node ancestors params).wellKeyed = true := by
  simp only [markFunctionLike]
  split <;> exact finishMark_wellKeyed _ _ _ _ _ _ _ _ hw

theorem markFunctionLike_flag_mono (ctx : EngineCtx) (reg : Registry)
    (node : Node) (ancestors : List Node) (params : List Node) (k : Nat)
    (hw : reg.wellKeyed = true)
    (hcoh : reg.getC ctx.utils.getParentComponent = none →
      reg.lookupK node.start = none)
    (hk : reg.flagAt k = some true) :
    (markFunctionLike ctx reg node ancestors params).flagAt k = some true := by
  simp only [markFunctionLike]
  split <;> exact finishMark_flag_mono _ _ _ _ _ _ _ _ k hw hcoh hk

theorem finishMark_state (ctx : EngineCtx) (reg : Registry) (node : Node)
    (ancestors : List Node) (nm : String) (an : List (Option String))
    (ty : Option String) (ps : List Node) (full : List Node)
    (hmem : node ∈ full) :
    (∀ k, ((finishMark ctx reg node ancestors nm an ty ps).lookupK k).isSome
        = (reg.lookupK k).isSome) ∧
    (reg.wellKeyed = true →
      (finishMark ctx reg node ancestors nm an ty ps).wellKeyed = true) ∧
    (reg.wellKeyed = true →
      (reg.getC ctx.utils.getParentComponent = none →
        ∀ m ∈ full, reg.lookupK m.start = none) →
      ∀ k, reg.flagAt k = some true →
        (finishMark ctx reg node ancestors nm an ty ps).flagAt k = some true) :=
  ⟨fun k => finishMark_lookupK_isSome _ _ _ _ _ _ _ _ k,
   fun hw => finishMark_wellKeyed _ _ _ _ _ _ _ _ hw,
   fun hw hcoh k hk => finishMark_flag_mono _ _ _ _ _ _ _ _ k hw
     (fun hnone => hcoh hnone node hmem) hk⟩

theorem markFunctionLike_state (ctx : EngineCtx) (reg : Registry) (node : Node)
    (ancestors : List Node) (params : List Node) (full : List Node)
    (hmem : node ∈ full) :
    (∀ k, ((markFunctionLike ctx reg node ancestors params).lookupK k).isSome
        = (reg.lookupK k).isSome) ∧
    (reg.wellKeyed = true →
      (markFunctionLike ctx reg node ancestors params).wellKeyed = true) ∧
    (reg.wellKeyed = true →
      (reg.getC ctx.utils.getParentComponent = none →
        ∀ m ∈ full, reg.lookupK m.start = none) →
      ∀ k, reg.flagAt k = some true →
        (markFunctionLike ctx reg node ancestors params).flagAt k = some true) :=
  ⟨fun k => markFunctionLike_lookupK_isSome _ _ _ _ _ k,
   fun hw => markFunctionLike_wellKeyed _ _ _ _ _ hw,
   fun hw hcoh k hk => markFunctionLike_flag_mono _ _ _ _ _ k hw
     (fun hnone => hcoh hnone node hmem) hk⟩

set_option maxHeartbeats 2000000 in
/-- The state lemma for `markPropTypesAsUsed`: a successful mark preserves the
set of registered keys, preserves well-keyedness, and (when the external
answers are coherent: an absent owning component means the marked node and its
ancestors are unregistered) never resets a suppress flag that was `true`. -/
theorem mark_state (ctx : EngineCtx) :
    ∀ (ancestors : List Node) (node : Node) (parentNames : List (Option String))
      (reg reg' : Registry),
      markPropTypesAsUsed ctx node ancestors parentNames reg = .ok reg' →
      (∀ k, (reg'.lookupK k).isSome = (reg.lookupK k).isSome) ∧
      (reg.wellKeyed = true → reg'.wellKeyed = true) ∧
      (reg.wellKeyed = true →
        (reg.getC ctx.utils.getParentComponent = none →
          ∀ m ∈ node :: ancestors, reg.lookupK m.start = none) →
        ∀ k, reg.flagAt k = some true → reg'.flagAt k = some true) := by
  intro ancestors
  induction ancestors with
  | nil =>
    intro node parentNames reg reg' h
    cases node <;> simp only [markPropTypesAsUsed] at h <;>
      try exact Except.noConfusion h
    case member s o pr cm =>
      split at h
      · injection h with h; subst h
        exact finishMark_state _ _ _ _ _ _ _ _ _ (List.mem_cons_self _ _)
      · split at h
        · split at h <;>
            (injection h with h; subst h;
              exact finishMark_state _ _ _ _ _ _ _ _ _ (List.mem_cons_self _ _))
        · injection h with h; subst h
          exact finishMark_state _ _ _ _ _ _ _ _ _ (List.mem_cons_self _ _)
    case arrowFunctionExpression s ps b =>
      injection h with h; subst h
      exact markFunctionLike_state _ _ _ _ _ _ (List.mem_cons_self _ _)
    case functionDeclaration s ps b =>
      injection h with h; subst h
      exact markFunctionLike_state _ _ _ _ _ _ (List.mem_cons_self _ _)
    case functionExpression s ps b =>
      injection h with h; subst h
      exact markFunctionLike_state _ _ _ _ _ _ (List.mem_cons_self _ _)
    case variableDeclarator s i ini =>
      split at h <;>
        (injection h with h; subst h;
          exact finishMark_state _ _ _ _ _ _ _ _ _ (List.mem_cons_self _ _))
  | cons parent rest ih =>
    intro node parentNames reg reg' h
    cases node <;> simp only [markPropTypesAsUsed] at h <;>
      try exact Except.noConfusion h
    case member s o pr cm =>
      split at h
      · -- truthy name: the match on the recursion result
        split at h
        · exact Except.noConfusion h
        · next reg1 heq =>
          injection h with h; subst h
          split at heq
          · -- chain guard true: the recursive mark ran on the parent
            obtain ⟨ih1, ih2, ih3⟩ := ih parent _ reg reg1 heq
            refine ⟨?_, ?_, ?_⟩
            · intro k
              rw [finishMark_lookupK_isSome]
              exact ih1 k
            · intro hw
              exact finishMark_wellKeyed _ _ _ _ _ _ _ _ (ih2 hw)
            · intro hw hcoh k hk
              have hw1 := ih2 hw
              have hcoh1 : reg1.getC ctx.utils.getParentComponent = none →
                  reg1.lookupK (Node.member s o pr cm).start = none := by
                intro hnone
                have hnone0 : reg.getC ctx.utils.getParentComponent = none := by
                  cases hpk : ctx.utils.getParentComponent with
                  | none => simp [Registry.getC, hpk]
                  | some p =>
                    simp only [Registry.getC, hpk, Option.some_bind] at hnone ⊢
                    exact lookupK_none_of_isSome_eq (ih1 p.start) hnone
                have hreg := hcoh hnone0 _ (List.mem_cons_self _ _)
                exact lookupK_none_of_isSome_eq
                  (ih1 (Node.member s o pr cm).start).symm hreg
              have hk1 := ih3 hw
                (fun hnone m hm => hcoh hnone m (List.mem_cons_of_mem _ hm)) k hk
              exact finishMark_flag_mono _ _ _ _ _ _ _ _ k hw1 hcoh1 hk1
          · -- chain guard false: no recursion happened
            injection heq with heq; subst heq
            exact finishMark_state _ _ _ _ _ _ _ _ _ (List.mem_cons_self _ _)
      · -- falsy name: the destructuring fall-through
        split at h
        · split at h <;>
            (injection h with h; subst h;
              exact finishMark_state _ _ _ _ _ _ _ _ _ (List.mem_cons_self _ _))
        · injection h with h; subst h
          exact finishMark_state _ _ _ _ _ _ _ _ _ (List.mem_cons_self _ _)
    case arrowFunctionExpression s ps b =>
      injection h with h; subst h
      exact markFunctionLike_state _ _ _ _ _ _ (List.mem_cons_self _ _)
    case functionDeclaration s ps b =>
      injection h with h; subst h
      exact markFunctionLike_state _ _ _ _ _ _ (List.mem_cons_self _ _)
    case functionExpression s ps b =>
      injection h with h; subst h
      exact markFunctionLike_state _ _ _ _ _ _ (List.mem_cons_self _ _)
    case variableDeclarator s i ini =>
      split at h <;>
        (injection h with h; subst h;
          exact finishMark_state _ _ _ _ _ _ _ _ _ (List.mem_cons_self _ _))

theorem StateStep.refl {pk : Option Node} {cands : List Node} {reg : Registry} :
    StateStep pk cands reg reg :=
  ⟨fun _ => rfl, id, fun _ _ _ hk => hk⟩

theorem StateStep.trans {pk : Option Node} {cands : List Node}
    {reg reg1 reg' : Registry} (h1 : StateStep pk cands reg reg1)
    (h2 : StateStep pk cands reg1 reg') : StateStep pk cands reg reg' := by
  obtain ⟨a1, b1, c1⟩ := h1
  obtain ⟨a2, b2, c2⟩ := h2
  refine ⟨fun k => (a2 k).trans (a1 k), fun hw => b2 (b1 hw), ?_⟩
  intro hw hcoh k hk
  apply c2 (b1 hw)
  · intro hnone m hm
    have hnone0 : reg.getC pk = none := by
      cases hpk : pk with
      | none => simp [Registry.getC, hpk]
      | some p =>
        simp only [Registry.getC, hpk, Option.some_bind] at hnone ⊢
        exact lookupK_none_of_isSome_eq (a1 p.start) hnone
    exact lookupK_none_of_isSome_eq (a1 m.start).symm (hcoh hnone0 m hm)
  · exact c1 hw hcoh k hk

theorem StateStep.widen {pk : Option Node} {c1 c2 : List Node}
    {reg reg' : Registry} (hsub : ∀ m ∈ c1, m ∈ c2)
    (h : StateStep pk c1 reg reg') : StateStep pk c2 reg reg' :=
  ⟨h.1, h.2.1, fun hw hcoh => h.2.2 hw (fun hnone m hm => hcoh hnone m (hsub m hm))⟩

theorem mark_StateStep (ctx : EngineCtx) (node : Node) (ancestors : List Node)
    (parentNames : List (Option String)) (reg reg' : Registry)
    (h : markPropTypesAsUsed ctx node ancestors parentNames reg = .ok reg') :
    StateStep ctx.utils.getParentComponent (node :: ancestors) reg reg' :=
  mark_state ctx ancestors node parentNames reg reg' h

theorem setC_flagTrue_flag_mono (reg : Registry) (key : Node) (k : Nat)
    (hk : reg.flagAt k = some true) :
    (reg.setC key ⟨none, some true⟩).flagAt k = some true := by
  by_cases hkk : k = key.start
  · rw [Registry.flagAt, lookupK_setC, if_pos hkk]
    cases hx : reg.lookupK k with
    | none => rw [Registry.flagAt, hx] at hk; simp at hk
    | some c => simp [SetFields.apply]
  · rw [Registry.flagAt, lookupK_setC_other _ _ _ _ hkk]
    exact hk

theorem handleSetStateUpdater_StateStep (ctx : EngineCtx) (reg : Registry)
    (node : Node) (ancestors : List Node) (reg' : Registry)
    (h : handleSetStateUpdater ctx reg node ancestors = .ok reg') :
    StateStep ctx.utils.getParentComponent (node :: ancestors) reg reg' := by
  simp only [handleSetStateUpdater] at h
  split at h
  · injection h with h; subst h; exact StateStep.refl
  · exact mark_StateStep _ _ _ _ _ _ h

theorem markDestructuredFunctionArgumentsAsUsed_StateStep (ctx : EngineCtx)
    (reg : Registry) (node : Node) (ancestors : List Node) (reg' : Registry)
    (h : markDestructuredFunctionArgumentsAsUsed ctx reg node ancestors
      = .ok reg') :
    StateStep ctx.utils.getParentComponent (node :: ancestors) reg reg' := by
  simp only [markDestructuredFunctionArgumentsAsUsed] at h
  split at h <;> split at h <;>
    first
      | exact mark_StateStep _ _ _ _ _ _ h
      | (injection h with h; subst h; exact StateStep.refl)

theorem handleFunctionLikeExpressions_StateStep (ctx : EngineCtx)
    (reg : Registry) (node : Node) (ancestors : List Node) (reg' : Registry)
    (h : handleFunctionLikeExpressions ctx reg node ancestors = .ok reg') :
    StateStep ctx.utils.getParentComponent (node :: ancestors) reg reg' := by
  simp only [handleFunctionLikeExpressions] at h
  split at h
  · exact Except.noConfusion h
  · next reg1 heq =>
    exact (handleSetStateUpdater_StateStep _ _ _ _ _ heq).trans
      (markDestructuredFunctionArgumentsAsUsed_StateStep _ _ _ _ _ h)

theorem visitNode_StateStep (U : UtilsAt) (async : Bool) (reg reg' : Registry)
    (node : Node) (ancestors : List Node)
    (h : visitNode U async reg node ancestors = .ok reg') :
    StateStep (U node ancestors).getParentComponent (node :: ancestors)
      reg reg' := by
  cases node <;> simp only [visitNode] at h
  all_goals try (injection h with h; subst h; exact StateStep.refl)
  case variableDeclarator s i ini =>
    split at h
    · injection h with h; subst h; exact StateStep.refl
    · exact mark_StateStep _ _ _ _ _ _ h
  case arrowFunctionExpression s ps b =>
    exact handleFunctionLikeExpressions_StateStep _ _ _ _ _ h
  case functionDeclaration s ps b =>
    exact handleFunctionLikeExpressions_StateStep _ _ _ _ _ h
  case functionExpression s ps b =>
    exact handleFunctionLikeExpressions_StateStep _ _ _ _ _ h
  case jsxSpreadAttribute s a =>
    injection h with h; subst h
    refine ⟨fun k => lookupK_setC_isSome _ _ _ _,
      fun hw => wellKeyed_setC _ _ _ hw, ?_⟩
    intro hw hcoh k hk
    exact setC_flagTrue_flag_mono _ _ _ hk
  case member s o pr cm =>
    split at h
    · exact mark_StateStep _ _ _ _ _ _ h
    · injection h with h; subst h; exact StateStep.refl
  case objectPattern s ps =>
    cases ancestors with
    | nil => injection h with h; subst h; exact StateStep.refl
    | cons p1 tl =>
      cases tl with
      | nil => injection h with h; subst h; exact StateStep.refl
      | cons p2 rest =>
        split at h
        · -- the `p1 :: p2 :: rest` arm of the ancestor match
          next p1' p2' rest' heq =>
            injection heq with e1 heq2
            injection heq2 with e2 e3
            subst e1; subst e2; subst e3
            split at h
            · refine StateStep.widen ?_ (mark_StateStep _ _ _ _ _ _ h)
              intro m hm
              exact List.mem_cons_of_mem _ hm
            · injection h with h; subst h; exact StateStep.refl
        · -- the unreachable catch-all arm of the ancestor match
          next x => exact absurd rfl (x _ _ _)

theorem isPrefixOf_data_append (p s t : String)
    (h : p.data.isPrefixOf s.data = true) :
    p.data.isPrefixOf (s ++ t).data = true := by
  have h1 : p.data <+: s.data := by
    rw [← List.isPrefixOf_iff_prefix]; exact h
  have h2 : p.data <+: (s ++ t).data := by
    rw [String.data_append]
    exact h1.trans (List.prefix_append _ _)
  rw [← List.isPrefixOf_iff_prefix] at h2
  exact h2

theorem isDirectPropsRegex_append (s t : String)
    (h : isDirectPropsRegex s = true) :
    isDirectPropsRegex (s ++ t) = true := by
  simp only [isDirectPropsRegex, directRootTest, Bool.or_eq_true] at h ⊢
  rcases h with h | h
  · exact Or.inl (isPrefixOf_data_append _ _ _ h)
  · exact Or.inr (isPrefixOf_data_append _ _ _ h)

theorem getPropertyName_direct (ctx : EngineCtx) (s s2 : Nat) (o : Node)
    (m : String) (ancestors : List Node)
    (hES6 : ctx.utils.getParentES6Component = false)
    (hES5 : ctx.utils.getParentES5Component = false)
    (hdirect : isDirectPropsRegex
      (Node.getText (.member s o (.identifier s2 m) false)) = true) :
    getPropertyName ctx (.member s o (.identifier s2 m) false) ancestors
      = some m := by
  simp [getPropertyName, hES6, hES5, hdirect, Node.property?, Node.computed]

/-- One-step unfolding of `markPropTypesAsUsed` at a member expression with
no ancestors. -/
theorem markPropTypesAsUsed_member_nil (ctx : EngineCtx) (s : Nat) (o p : Node)
    (c : Bool) (parentNames : List (Option String)) (reg : Registry) :
    markPropTypesAsUsed ctx (.member s o p c) [] parentNames reg =
      (let name := getPropertyName ctx (.member s o p c) []
       if jsTruthyStr name then
         .ok (finishMark ctx reg (.member s o p c) [] (name.getD "")
           (parentNames ++ [some (name.getD "")])
           (if name.getD "" != "__COMPUTED_PROP__" then some "direct" else none)
           [])
       else .ok (finishMark ctx reg (.member s o p c) [] "" [] none [])) :=
  rfl

/-- One-step unfolding of `markPropTypesAsUsed` at a member expression with a
parent (the recursive occurrence stays folded). -/
theorem markPropTypesAsUsed_member_cons (ctx : EngineCtx) (s : Nat) (o p : Node)
    (c : Bool) (parent : Node) (rest : List Node)
    (parentNames : List (Option String)) (reg : Registry) :
    markPropTypesAsUsed ctx (.member s o p c) (parent :: rest) parentNames reg =
      (let name := getPropertyName ctx (.member s o p c) (parent :: rest)
       if jsTruthyStr name then
         let nameS := name.getD ""
         let allNames := parentNames ++ [some nameS]
         let recursed : Except String Registry :=
           if parent.typeName == "MemberExpression" &&
               (parent.object?.map Node.start)
                 == some (Node.member s o p c).start then
             markPropTypesAsUsed ctx parent rest allNames reg
           else .ok reg
         match recursed with
         | .error e => .error e
         | .ok reg1 =>
           .ok (finishMark ctx reg1 (.member s o p c) (parent :: rest) nameS
             allNames
             (if nameS != "__COMPUTED_PROP__" then some "direct" else none) [])
       else
         match parent.id?.bind Node.properties? with
         | some props =>
           if props.length != 0 && jsTruthyStr (props.head?.bind getKeyValue) then
             .ok (finishMark ctx reg (.member s o p c) (parent :: rest) "" []
               (some "destructuring") props)
           else
             .ok (finishMark ctx reg (.member s o p c) (parent :: rest) "" []
               none [])
         | none =>
           .ok (finishMark ctx reg (.member s o p c) (parent :: rest) "" []
             none [])) :=
  rfl

theorem finishMark_direct_compute (ctx : EngineCtx) (reg : Registry)
    (node : Node) (ancestors : List Node) (nm : String)
    (an : List (Option String)) (pk : Node) (comp : Component)
    (hpk : ctx.utils.getParentComponent = some pk)
    (hlook : reg.lookupK pk.start = some comp)
    (hcn : comp.node.start = pk.start)
    (hproto : nm ∉ objectPrototypeNames)
    (hdirect : isDirectPropsRegex node.getText = true) :
    (finishMark ctx reg node ancestors nm an (some "direct") []).lookupK pk.start
      = some { comp with usedPropTypes := comp.usedPropTypes ++
          [{ name := nm, allNames := an, node := node.property? }] } ∧
    ∀ j, j ≠ pk.start →
      (finishMark ctx reg node ancestors nm an (some "direct") []).lookupK j
        = reg.lookupK j := by
  have hcomp : reg.getC ctx.utils.getParentComponent = some comp := by
    simp [Registry.getC, hpk, hlook]
  constructor
  · rw [finishMark]
    simp only [hcomp]
    rw [lookupK_setC, if_pos hcn.symm, hlook]
    simp [finishResult, hproto, hdirect, SetFields.apply]
  · intro j hj
    rw [finishMark]
    simp only [hcomp]
    exact lookupK_setC_other _ _ _ _ (by rw [hcn]; exact hj)

theorem chainRecords_head (names : List String) :
    ∀ (acc : List (Option String)), names ≠ [] →
      (chainRecords acc names ≠ [] ∧
        ((chainRecords acc names).head?).map UsageRecord.allNames
          = some (acc ++ names.map some)) := by
  induction names with
  | nil => intro acc h; exact absurd rfl h
  | cons n rest ih =>
    intro acc _
    cases hr : rest with
    | nil => simp [chainRecords, hr]
    | cons r rs =>
      subst hr
      have hne : r :: rs ≠ [] := by simp
      obtain ⟨ihne, ihhead⟩ := ih (acc ++ [some n]) hne
      constructor
      · simp [chainRecords]
      · rw [chainRecords, List.head?_append, Option.or_of_isSome
          (by cases hx : (chainRecords (acc ++ [some n]) (r :: rs)).head? with
              | none => exact absurd (List.head?_eq_none_iff.mp hx) ihne
              | some u => simp)]
        rw [ihhead]
        simp

theorem chainMark (ctx : EngineCtx) (pk : Node)
    (hES6 : ctx.utils.getParentES6Component = false)
    (hES5 : ctx.utils.getParentES5Component = false)
    (hpk : ctx.utils.getParentComponent = some pk) :
    ∀ (names : List String) (o : Node) (m : String) (acc : List (Option String))
      (reg : Registry) (comp : Component),
      reg.lookupK pk.start = some comp →
      comp.node.start = pk.start →
      isDirectPropsRegex
        (Node.getText (.member 0 o (.identifier 0 m) false)) = true →
      (∀ n ∈ m :: names,
        n ∉ objectPrototypeNames ∧ n ≠ "" ∧ n ≠ "__COMPUTED_PROP__") →
      ∃ reg',
        markPropTypesAsUsed ctx (.member 0 o (.identifier 0 m) false)
          (chainNodes (.member 0 o (.identifier 0 m) false) names ++ [chainStop])
          acc reg = .ok reg' ∧
        reg'.lookupK pk.start = some { comp with
          usedPropTypes := comp.usedPropTypes ++ chainRecords acc (m :: names) } ∧
        (∀ j, j ≠ pk.start → reg'.lookupK j = reg.lookupK j) := by
  intro names
  induction names with
  | nil =>
    intro o m acc reg comp hlook hcn hdirect hside
    obtain ⟨hm1, hm2, hm3⟩ := hside m (by simp)
    have hgpn : ∀ anc, getPropertyName ctx (.member 0 o (.identifier 0 m) false)
        anc = some m :=
      fun anc => getPropertyName_direct ctx 0 0 o m anc hES6 hES5 hdirect
    have htr : jsTruthyStr (some m) = true := by simp [jsTruthyStr, hm2]
    have hcpop : (m != "__COMPUTED_PROP__") = true := by simp [hm3]
    obtain ⟨hself, hother⟩ := finishMark_direct_compute ctx reg
      (.member 0 o (.identifier 0 m) false) [chainStop] m (acc ++ [some m])
      pk comp hpk hlook hcn hm1 hdirect
    refine ⟨finishMark ctx reg (.member 0 o (.identifier 0 m) false) [chainStop]
      m (acc ++ [some m]) (some "direct") [], ?_, ?_, ?_⟩
    · rw [chainNodes, List.nil_append, markPropTypesAsUsed_member_cons]
      simp [hgpn, htr, hcpop, chainStop, Node.typeName]
    · rw [hself]
      simp [chainRecords, Node.property?]
    · exact hother
  | cons n rest ih =>
    intro o m acc reg comp hlook hcn hdirect hside
    obtain ⟨hm1, hm2, hm3⟩ := hside m (by simp)
    have htr : jsTruthyStr (some m) = true := by simp [jsTruthyStr, hm2]
    have hcpop : (m != "__COMPUTED_PROP__") = true := by simp [hm3]
    have hdirectNext : isDirectPropsRegex (Node.getText
        (.member 0 (.member 0 o (.identifier 0 m) false)
          (.identifier 0 n) false)) = true := by
      have heq : Node.getText (.member 0 (.member 0 o (.identifier 0 m) false)
          (.identifier 0 n) false)
          = Node.getText (.member 0 o (.identifier 0 m) false) ++ ("." ++ n) := by
        simp only [Node.getText]
        rw [String.append_assoc]
      rw [heq]
      exact isDirectPropsRegex_append _ _ hdirect
    have hgpn : ∀ anc, getPropertyName ctx (.member 0 o (.identifier 0 m) false)
        anc = some m :=
      fun anc => getPropertyName_direct ctx 0 0 o m anc hES6 hES5 hdirect
    obtain ⟨reg1, hmark1, hself1, hother1⟩ :=
      ih (.member 0 o (.identifier 0 m) false) n (acc ++ [some m]) reg comp
        hlook hcn hdirectNext
        (fun x hx => hside x (List.mem_cons_of_mem _ hx))
    obtain ⟨hself2, hother2⟩ := finishMark_direct_compute ctx reg1
      (.member 0 o (.identifier 0 m) false)
      (chainNodes (.member 0 o (.identifier 0 m) false) (n :: rest) ++
        [chainStop])
      m (acc ++ [some m]) pk
      { comp with
        usedPropTypes := comp.usedPropTypes ++
          chainRecords (acc ++ [some m]) (n :: rest) }
      hpk hself1 hcn hm1 hdirect
    refine ⟨finishMark ctx reg1 (.member 0 o (.identifier 0 m) false)
      (chainNodes (.member 0 o (.identifier 0 m) false) (n :: rest) ++
        [chainStop]) m (acc ++ [some m]) (some "direct") [], ?_, ?_, ?_⟩
    · rw [chainNodes, List.cons_append, markPropTypesAsUsed_member_cons]
      simp [chainNodes, hgpn, htr, hcpop, Node.typeName, Node.object?,
        Node.start, hmark1]
    · rw [hself2]
      simp [chainRecords, Node.property?, List.append_assoc]
    · intro j hj
      rw [hother2 j hj]
      exact hother1 j hj

theorem destructuringLoop_split (node : Node)
    (hwalk : walkMemberNames node = []) (marker : Node) (post : List Node)
    (hmarker : (hasSpreadOperator marker || marker.computed) = true) :
    ∀ (pre : List Node),
      (∀ p ∈ pre, hasSpreadOperator p = false ∧ p.computed = false) →
      ∀ (used : List UsageRecord) (ign : Bool),
        destructuringLoop node (pre ++ marker :: post) used ign
          = (used ++ pre.filterMap declRecord, true) := by
  intro pre
  induction pre with
  | nil =>
    intro _ used ign
    simp [destructuringLoop, hmarker]
  | cons p ps ih =>
    intro hpre used ign
    obtain ⟨h1, h2⟩ := hpre p (by simp)
    have ihx := ih (fun q hq => hpre q (by simp [hq]))
    simp only [List.cons_append, destructuringLoop, h1, h2, Bool.or_self,
      Bool.false_or, hwalk, List.nil_append]
    by_cases ht : jsTruthyStr (getKeyValue p) = true
    · simp only [ht, if_true, Bool.false_eq_true, if_false, List.append_eq]
      rw [ihx]
      simp [declRecord, ht]
    · simp only [Bool.not_eq_true] at ht
      simp only [ht, Bool.false_eq_true, if_false, List.append_eq]
      rw [ihx]
      simp [declRecord, ht]

theorem declaratorScan_generic (l : List Node) (q : Node) (qs : List Node)
    (hq : thisDestructuringProperty q = false) :
    declaratorScan true l (q :: qs) = some l := by
  simp [declaratorScan, hq]

theorem finishMark_destructuring_compute (ctx : EngineCtx) (reg : Registry)
    (node : Node) (ancestors : List Node) (ps : List Node) (pk : Node)
    (comp : Component)
    (hpk : ctx.utils.getParentComponent = some pk)
    (hlook : reg.lookupK pk.start = some comp)
    (hcn : comp.node.start = pk.start) :
    (finishMark ctx reg node ancestors "" [] (some "destructuring") ps).lookupK
        pk.start
      = some { comp with
          usedPropTypes := (destructuringLoop node ps comp.usedPropTypes
            comp.ignoreUnusedPropTypesValidation).fst
          ignoreUnusedPropTypesValidation := (destructuringLoop node ps
            comp.usedPropTypes comp.ignoreUnusedPropTypesValidation).snd } ∧
    ∀ j, j ≠ pk.start →
      (finishMark ctx reg node ancestors "" [] (some "destructuring")
        ps).lookupK j = reg.lookupK j := by
  have hcomp : reg.getC ctx.utils.getParentComponent = some comp := by
    simp [Registry.getC, hpk, hlook]
  constructor
  · rw [finishMark]
    simp only [hcomp]
    rw [lookupK_setC, if_pos hcn.symm, hlook]
    simp [finishResult, SetFields.apply]
  · intro j hj
    rw [finishMark]
    simp only [hcomp]
    exact lookupK_setC_other _ _ _ _ (by rw [hcn]; exact hj)

theorem scopeIs_iff_spec (sc : ScopeEntry) (hsf : startFaithful sc) :
    scopeIsInSetStateUpdater sc = true ↔ specUpdaterScope sc := by
  cases hbp : sc.blockParent with
  | none => simp [scopeIsInSetStateUpdater, specUpdaterScope, hbp]
  | some p =>
    cases p
    case callExpression s c args =>
      have h2 : (args.head?.map Node.start) = some sc.block.start ↔
          args.head? = some sc.block := by
        simpa [startFaithful, hbp] using hsf
      simp [scopeIsInSetStateUpdater, specUpdaterScope, hbp, h2]
    all_goals simp [scopeIsInSetStateUpdater, specUpdaterScope, hbp]

theorem inSetStateUpdater_iff_spec (ctx : EngineCtx)
    (hsf : ∀ sc ∈ ctx.scopes, startFaithful sc) :
    inSetStateUpdater ctx = true ↔ ∃ sc ∈ ctx.scopes, specUpdaterScope sc := by
  simp only [inSetStateUpdater, List.any_eq_true]
  constructor
  · rintro ⟨sc, hmem, hsc⟩
    exact ⟨sc, hmem, (scopeIs_iff_spec sc (hsf sc hmem)).mp hsc⟩
  · rintro ⟨sc, hmem, hsc⟩
    exact ⟨sc, hmem, (scopeIs_iff_spec sc (hsf sc hmem)).mpr hsc⟩

/-!  ### Claims -/

/-- C8: The engine is deterministic: running the traversal twice over the
same source unit, each time against the same fresh registry, yields identical
ordered usage lists (same records, names, paths, in the same order) and
identical suppress flags for every component.  In the embedding the engine is
a pure function of the source tree, the external answers and the initial
registry, so the two runs coincide definitionally. -/
theorem engineDeterministic (U : UtilsAt) (async : Bool) (tree : Node)
    (init : Registry) :
    runTraversal U async tree init = runTraversal U async tree init ∧
    (runTraversal U async tree init).map (fun reg => reg.map fun e =>
        (e.fst, e.snd.usedPropTypes.map UsageRecord.allNames,
          e.snd.ignoreUnusedPropTypesValidation))
      = (runTraversal U async tree init).map (fun reg => reg.map fun e =>
        (e.fst, e.snd.usedPropTypes.map UsageRecord.allNames,
          e.snd.ignoreUnusedPropTypesValidation)) :=
  ⟨rfl, rfl⟩

/-- C2 (counterexample): for the class component whose only access is
`this.props.config.theme` inside `componentWillReceiveProps`, the engine
yields two usage records, not exactly one: the nested read also records the
`["config"]` prefix. -/
theorem endToEnd_counterexample :
    (runPathsAt (runTraversal cwrpUtils true cwrpProg cwrpReg) 21).map
        List.length = some 2 ∧
    (runPathsAt (runTraversal cwrpUtils true cwrpProg cwrpReg) 21).map
        List.length ≠ some 1 := by
  constructor
  · rfl
  · intro h
    rw [show (runPathsAt (runTraversal cwrpUtils true cwrpProg cwrpReg) 21).map
        List.length = some 2 from rfl] at h
    simp at h

/-- C2 (amended): a class-style component whose only property access is
`this.props.name` inside `render` yields exactly one UsageRecord with path
`["name"]` and the suppress flag stays `false`; a component whose only access
is `this.props.config.theme` inside `componentWillReceiveProps` yields
exactly two UsageRecords, with paths `["config","theme"]` and `["config"]` in
that order (the full path first), and the suppress flag stays `false`. -/
theorem endToEnd_amended :
    runPathsAt (runTraversal renderUtils true renderProg renderReg) 1
      = some [[some "name"]] ∧
    runFlagAt (runTraversal renderUtils true renderProg renderReg) 1
      = some false ∧
    runPathsAt (runTraversal cwrpUtils true cwrpProg cwrpReg) 21
      = some [[some "config", some "theme"], [some "config"]] ∧
    runFlagAt (runTraversal cwrpUtils true cwrpProg cwrpReg) 21 = some false :=
  ⟨rfl, rfl, rfl, rfl⟩

/-- C6: for every node whose shape is none of the admitted forms,
`markPropTypesAsUsed` fails loudly by throwing (an `Except.error` carrying
the source's message); the error result carries no registry, so no
UsageRecord is appended and no component state changes. -/
theorem unhandledNodeThrows (ctx : EngineCtx) (node : Node)
    (ancestors : List Node) (parentNames : List (Option String))
    (reg : Registry) (h : isAdmittedMarkShape node = false) :
    markPropTypesAsUsed ctx node ancestors parentNames reg
      = .error (node.typeName ++
          " ASTNodes are not handled by markPropTypesAsUsed") := by
  cases ancestors with
  | nil =>
    cases node <;> simp [isAdmittedMarkShape, Node.typeName] at h <;>
      simp [markPropTypesAsUsed, Node.typeName]
  | cons parent rest =>
    cases node <;> simp [isAdmittedMarkShape, Node.typeName] at h <;>
      simp [markPropTypesAsUsed, Node.typeName]

/-- C6 (witness): a bare identifier reaching the marking procedure throws. -/
theorem unhandledNodeThrows_witness :
    isAdmittedMarkShape (.identifier 900 "oops") = false ∧
    markPropTypesAsUsed statelessCtx (.identifier 900 "oops") [] [] statelessReg
      = .error "Identifier ASTNodes are not handled by markPropTypesAsUsed" :=
  ⟨rfl, unhandledNodeThrows statelessCtx (.identifier 900 "oops") [] []
    statelessReg rfl⟩

/-- C1 (counterexample): marking the computed-key read `props[x]` in a
stateless component produces no UsageRecord, but — against the claim — does
not set the owning component's suppress flag: the flag stays `false`. -/
theorem computedKeyAccess_counterexample :
    (markPropTypesAsUsed statelessCtx computedAccess
        [.expressionStatement 46 computedAccess] [] statelessReg).toOption.bind
      (fun r => r.flagAt 43) = some false ∧
    (some false ≠ some true) ∧
    (markPropTypesAsUsed statelessCtx computedAccess
        [.expressionStatement 46 computedAccess] [] statelessReg).toOption.bind
      (fun r => r.usedAt 43) = some [] :=
  ⟨rfl, by simp, rfl⟩

/-- C1 (amended): a member-access read of the property object with a
non-literal computed key — one resolving to the `__COMPUTED_PROP__` marker —
and no chain continuation produces no UsageRecord and leaves every
component's suppress flag unchanged (in particular, it does not set it). -/
theorem computedKeyAccess_amended (ctx : EngineCtx) (s : Nat) (o p : Node)
    (c : Bool) (ancestors : List Node) (parentNames : List (Option String))
    (reg : Registry)
    (hname : getPropertyName ctx (.member s o p c) ancestors
      = some "__COMPUTED_PROP__")
    (hguard : chainContinues (.member s o p c) ancestors = false)
    (hw : reg.wellKeyed = true)
    (hcoh : reg.getC ctx.utils.getParentComponent = none →
      reg.lookupK (Node.member s o p c).start = none) :
    ∃ reg', markPropTypesAsUsed ctx (.member s o p c) ancestors parentNames reg
        = .ok reg' ∧
      ∀ k, reg'.usedAt k = reg.usedAt k ∧ reg'.flagAt k = reg.flagAt k := by
  have hnoop := finishMark_noop ctx reg (.member s o p c) ancestors
    "__COMPUTED_PROP__" (parentNames ++ [some "__COMPUTED_PROP__"]) none []
    hw hcoh (Or.inl rfl)
  refine ⟨finishMark ctx reg (.member s o p c) ancestors "__COMPUTED_PROP__"
    (parentNames ++ [some "__COMPUTED_PROP__"]) none [], ?_, ?_⟩
  · cases ancestors with
    | nil =>
      rw [markPropTypesAsUsed_member_nil]
      simp [hname, jsTruthyStr]
    | cons parent rest =>
      simp only [chainContinues] at hguard
      rw [markPropTypesAsUsed_member_cons]
      simp [hname, jsTruthyStr, hguard]
  · intro k
    exact ⟨by simp [Registry.usedAt, hnoop k],
      by simp [Registry.flagAt, hnoop k]⟩

/-- C1 (amended, witness): the hypotheses hold, and the conclusion follows,
for `props[x]` marked in the registered stateless component. -/
theorem computedKeyAccess_amended_witness :
    getPropertyName statelessCtx computedAccess
        [.expressionStatement 46 computedAccess] = some "__COMPUTED_PROP__" ∧
    chainContinues computedAccess [.expressionStatement 46 computedAccess]
        = false ∧
    statelessReg.wellKeyed = true ∧
    (∃ reg', markPropTypesAsUsed statelessCtx computedAccess
        [.expressionStatement 46 computedAccess] [] statelessReg = .ok reg' ∧
      ∀ k, reg'.usedAt k = statelessReg.usedAt k ∧
        reg'.flagAt k = statelessReg.flagAt k) := by
  refine ⟨rfl, rfl, rfl, ?_⟩
  refine computedKeyAccess_amended statelessCtx 40 (.identifier 41 "props")
    (.identifier 42 "x") true [.expressionStatement 46 computedAccess] []
    statelessReg rfl rfl rfl ?_
  intro hnone
  rw [show Registry.getC statelessReg
      statelessCtx.utils.getParentComponent
      = some ⟨statelessComp, [], false, false, []⟩ from rfl] at hnone
  exact Option.noConfusion hnone

theorem objectPrototypeNames_facts {nm : String}
    (h : nm ∈ objectPrototypeNames) :
    nm ≠ "" ∧ nm ≠ "__COMPUTED_PROP__" := by
  fin_cases h <;> exact ⟨by decide, by decide⟩

/-- C9: a direct member access whose resolved field name is a property of
`Object.prototype` (for example `props.hasOwnProperty`, `props.toString`,
`props.constructor`, `props.valueOf`) records no UsageRecord (here stated for
an access with no chain continuation: the registered usage lists are left
unchanged at every key). -/
theorem objectPrototypeSkipped (ctx : EngineCtx) (s : Nat) (o p : Node)
    (c : Bool) (ancestors : List Node) (parentNames : List (Option String))
    (reg : Registry) (nm : String)
    (hname : getPropertyName ctx (.member s o p c) ancestors = some nm)
    (hproto : nm ∈ objectPrototypeNames)
    (hguard : chainContinues (.member s o p c) ancestors = false)
    (hw : reg.wellKeyed = true)
    (hcoh : reg.getC ctx.utils.getParentComponent = none →
      reg.lookupK (Node.member s o p c).start = none) :
    ∃ reg', markPropTypesAsUsed ctx (.member s o p c) ancestors parentNames reg
        = .ok reg' ∧
      ∀ k, reg'.usedAt k = reg.usedAt k := by
  obtain ⟨hne, hncp⟩ := objectPrototypeNames_facts hproto
  have htr : jsTruthyStr (some nm) = true := by simp [jsTruthyStr, hne]
  have hcp : (nm != "__COMPUTED_PROP__") = true := by simp [hncp]
  have hcontains : objectPrototypeNames.contains nm = true := by
    simpa using hproto
  have hnoop := finishMark_noop ctx reg (.member s o p c) ancestors nm
    (parentNames ++ [some nm]) (some "direct") [] hw hcoh
    (Or.inr ⟨rfl, hcontains⟩)
  refine ⟨finishMark ctx reg (.member s o p c) ancestors nm
    (parentNames ++ [some nm]) (some "direct") [], ?_, ?_⟩
  · cases ancestors with
    | nil =>
      rw [markPropTypesAsUsed_member_nil]
      simp [hname, htr, hcp]
    | cons parent rest =>
      simp only [chainContinues] at hguard
      rw [markPropTypesAsUsed_member_cons]
      simp [hname, htr, hcp, hguard]
  · intro k
    simp [Registry.usedAt, hnoop k]

/-- C9 (witness): `props.hasOwnProperty` in the stateless component records
nothing. -/
theorem objectPrototypeSkipped_witness :
    getPropertyName statelessCtx
        (.member 47 (.identifier 48 "props") (.identifier 49 "hasOwnProperty")
          false) [.expressionStatement 46 (.identifier 46 "e")]
        = some "hasOwnProperty" ∧
    ("hasOwnProperty" ∈ objectPrototypeNames) ∧
    (∃ reg', markPropTypesAsUsed statelessCtx
        (.member 47 (.identifier 48 "props") (.identifier 49 "hasOwnProperty")
          false) [.expressionStatement 46 (.identifier 46 "e")] [] statelessReg
          = .ok reg' ∧
      ∀ k, reg'.usedAt k = statelessReg.usedAt k) := by
  refine ⟨rfl, by decide, ?_⟩
  refine objectPrototypeSkipped statelessCtx 47 (.identifier 48 "props")
    (.identifier 49 "hasOwnProperty") false
    [.expressionStatement 46 (.identifier 46 "e")] [] statelessReg
    "hasOwnProperty" rfl (by decide) rfl rfl ?_
  intro hnone
  rw [show Registry.getC statelessReg
      statelessCtx.utils.getParentComponent
      = some ⟨statelessComp, [], false, false, []⟩ from rfl] at hnone
  exact Option.noConfusion hnone

/-- C3 (counterexample): marking `let {...rest, b} = props` for the
registered stateless component sets the suppress flag but records nothing:
the spread field (which comes first) aborts the loop, so the other bound
field `b` yields no UsageRecord — against the claim's "every other bound
field of the same pattern still yields one UsageRecord". -/
theorem destructuringSpread_counterexample :
    (markPropTypesAsUsed statelessCtx spreadFirstDecl [] []
        statelessReg).toOption.bind (fun r => r.usedAt 43) = some [] ∧
    (markPropTypesAsUsed statelessCtx spreadFirstDecl [] []
        statelessReg).toOption.bind (fun r => r.flagAt 43) = some true :=
  ⟨rfl, rfl⟩

/-- C3 (amended): when marking the bound fields of a destructuring pattern, a
field carrying a spread marker or a computed key sets the suppress flag for
the whole component and stops the loop: every bound field before it still
yields one UsageRecord, and the fields after it are skipped; in particular
`({a, ...rest}) = props` records a usage for `a` and sets the suppress flag,
both together. -/
theorem destructuringSpread_amended (ctx : EngineCtx) (sd sp si : Nat)
    (pre : List Node) (marker : Node) (post : List Node) (pk : Node)
    (comp : Component) (reg : Registry)
    (hstateless : ctx.utils.getParentStatelessComponent = true)
    (hpk : ctx.utils.getParentComponent = some pk)
    (hlook : reg.lookupK pk.start = some comp)
    (hcn : comp.node.start = pk.start)
    (hmarker : (hasSpreadOperator marker || marker.computed) = true)
    (hpre : ∀ p ∈ pre, hasSpreadOperator p = false ∧ p.computed = false)
    (hthis : ∀ p ∈ pre ++ marker :: post, thisDestructuringProperty p = false) :
    ∃ reg',
      markPropTypesAsUsed ctx
        (.variableDeclarator sd (.objectPattern sp (pre ++ marker :: post))
          (some (.identifier si "props"))) [] [] reg = .ok reg' ∧
      reg'.usedAt pk.start
        = some (comp.usedPropTypes ++ pre.filterMap declRecord) ∧
      reg'.flagAt pk.start = some true := by
  have hscan : declaratorScan true (pre ++ marker :: post)
      (pre ++ marker :: post) = some (pre ++ marker :: post) := by
    cases pre with
    | nil =>
      simpa using declaratorScan_generic (marker :: post) marker post
        (hthis marker (by simp))
    | cons q qs =>
      simp only [List.cons_append]
      exact declaratorScan_generic _ q _ (hthis q (by simp))
  have hloop := destructuringLoop_split
    (Node.variableDeclarator sd (.objectPattern sp (pre ++ marker :: post))
      (some (.identifier si "props"))) rfl marker post hmarker pre hpre
    comp.usedPropTypes comp.ignoreUnusedPropTypesValidation
  obtain ⟨hself, _⟩ := finishMark_destructuring_compute ctx reg
    (.variableDeclarator sd (.objectPattern sp (pre ++ marker :: post))
      (some (.identifier si "props"))) [] (pre ++ marker :: post) pk comp
    hpk hlook hcn
  refine ⟨finishMark ctx reg
    (.variableDeclarator sd (.objectPattern sp (pre ++ marker :: post))
      (some (.identifier si "props"))) [] "" [] (some "destructuring")
    (pre ++ marker :: post), ?_, ?_, ?_⟩
  · simp [markPropTypesAsUsed, Node.id?, Node.properties?, isPropAttributeName,
      Node.init?, Node.name?, hstateless, hscan]
  · rw [Registry.usedAt, hself]
    simp [hloop]
  · rw [Registry.flagAt, hself]
    simp [hloop]

/-- C3 (amended, witness): `let {a, ...rest} = props` marked in the stateless
component records `a` and sets the suppress flag, both together. -/
theorem destructuringSpread_amended_witness :
    statelessCtx.utils.getParentStatelessComponent = true ∧
    ((hasSpreadOperator restField || restField.computed) = true) ∧
    (∀ p ∈ [aField], hasSpreadOperator p = false ∧ p.computed = false) ∧
    (∀ p ∈ [aField] ++ restField :: [],
      thisDestructuringProperty p = false) ∧
    (∃ reg', markPropTypesAsUsed statelessCtx
        (.variableDeclarator 66 (.objectPattern 60 ([aField] ++ restField :: []))
          (some (.identifier 67 "props"))) [] [] statelessReg = .ok reg' ∧
      reg'.usedAt 43
        = some (([] : List UsageRecord) ++ [aField].filterMap declRecord) ∧
      reg'.flagAt 43 = some true) := by
  refine ⟨rfl, rfl, by decide, by decide, ?_⟩
  exact destructuringSpread_amended statelessCtx 66 60 67 [aField] restField []
    statelessComp ⟨statelessComp, [], false, false, []⟩ statelessReg
    rfl rfl rfl rfl rfl (by decide) (by decide)

/-- C4: for a direct member chain `props.m.n1…nk` marked in an eligible
(stateless) context, where each intermediate step is a direct member
continuation, the recorded path of the deepest (first-pushed) record equals
exactly the chain's names; and a chain step is not followed when the current
node is instead the key of the parent access, as in `x[props.m]`, which
records only `[m]`. -/
theorem directChainPaths (inC : Option Node → Bool) (stateless : Bool)
    (async : Bool) (pk : Node) (names : List String) (m : String)
    (reg : Registry) (comp : Component)
    (hlook : reg.lookupK pk.start = some comp)
    (hcn : comp.node.start = pk.start)
    (hside : ∀ n ∈ m :: names,
      n ∉ objectPrototypeNames ∧ n ≠ "" ∧ n ≠ "__COMPUTED_PROP__") :
    (∃ reg',
      markPropTypesAsUsed ⟨[], ⟨false, false, inC, stateless, some pk⟩, async⟩
        (.member 0 (.identifier 0 "props") (.identifier 0 m) false)
        (chainNodes (.member 0 (.identifier 0 "props") (.identifier 0 m) false)
          names ++ [chainStop]) [] reg = .ok reg' ∧
      reg'.usedAt pk.start
        = some (comp.usedPropTypes ++ chainRecords [] (m :: names)) ∧
      ((chainRecords [] (m :: names)).head?).map UsageRecord.allNames
        = some ((m :: names).map some)) ∧
    (∃ reg'',
      markPropTypesAsUsed ⟨[], ⟨false, false, inC, stateless, some pk⟩, async⟩
        (.member 1 (.identifier 2 "props") (.identifier 3 m) false)
        [.member 4 (.identifier 5 "x")
          (.member 1 (.identifier 2 "props") (.identifier 3 m) false) true,
          chainStop] [] reg = .ok reg'' ∧
      reg''.usedAt pk.start = some (comp.usedPropTypes ++
        [{ name := m, allNames := [some m],
           node := some (.identifier 3 m) }])) := by
  obtain ⟨hm1, hm2, hm3⟩ := hside m (by simp)
  have htr : jsTruthyStr (some m) = true := by simp [jsTruthyStr, hm2]
  have hcp : (m != "__COMPUTED_PROP__") = true := by simp [hm3]
  constructor
  · have hdir1 : isDirectPropsRegex (Node.getText
        (.member 0 (.identifier 0 "props") (.identifier 0 m) false)) = true :=
      isDirectPropsRegex_append "props." m rfl
    obtain ⟨reg', hm', hself, _⟩ :=
      chainMark ⟨[], ⟨false, false, inC, stateless, some pk⟩, async⟩ pk
        rfl rfl rfl names (.identifier 0 "props") m [] reg comp hlook hcn
        hdir1 hside
    refine ⟨reg', hm', ?_, ?_⟩
    · rw [Registry.usedAt, hself]
      rfl
    · have := (chainRecords_head (m :: names) [] (by simp)).2
      simpa using this
  · have hdir2 : isDirectPropsRegex (Node.getText
        (.member 1 (.identifier 2 "props") (.identifier 3 m) false)) = true :=
      isDirectPropsRegex_append "props." m rfl
    have hgpn2 : ∀ anc, getPropertyName
        ⟨[], ⟨false, false, inC, stateless, some pk⟩, async⟩
        (.member 1 (.identifier 2 "props") (.identifier 3 m) false) anc
        = some m :=
      fun anc => getPropertyName_direct _ 1 3 (.identifier 2 "props") m anc
        rfl rfl hdir2
    obtain ⟨hself2, _⟩ := finishMark_direct_compute
      ⟨[], ⟨false, false, inC, stateless, some pk⟩, async⟩ reg
      (.member 1 (.identifier 2 "props") (.identifier 3 m) false)
      [.member 4 (.identifier 5 "x")
        (.member 1 (.identifier 2 "props") (.identifier 3 m) false) true,
        chainStop] m ([] ++ [some m]) pk comp rfl hlook hcn hm1 hdir2
    refine ⟨finishMark ⟨[], ⟨false, false, inC, stateless, some pk⟩, async⟩ reg
      (.member 1 (.identifier 2 "props") (.identifier 3 m) false)
      [.member 4 (.identifier 5 "x")
        (.member 1 (.identifier 2 "props") (.identifier 3 m) false) true,
        chainStop] m ([] ++ [some m]) (some "direct") [], ?_, ?_⟩
    · rw [markPropTypesAsUsed_member_cons]
      simp [hgpn2, htr, hcp, Node.typeName, Node.object?, Node.start]
    · rw [Registry.usedAt, hself2]
      simp [Node.property?]

/-- C4 (witness): the chain `props.a.b.c` records `["a","b","c"]` first. -/
theorem directChainPaths_witness :
    statelessReg.lookupK statelessComp.start
        = some ⟨statelessComp, [], false, false, []⟩ ∧
    (∀ n ∈ ["a", "b", "c"],
      n ∉ objectPrototypeNames ∧ n ≠ "" ∧ n ≠ "__COMPUTED_PROP__") ∧
    ((∃ reg', markPropTypesAsUsed
        ⟨[], ⟨false, false, fun _ => false, true, some statelessComp⟩, true⟩
        (.member 0 (.identifier 0 "props") (.identifier 0 "a") false)
        (chainNodes (.member 0 (.identifier 0 "props") (.identifier 0 "a")
          false) ["b", "c"] ++ [chainStop]) [] statelessReg = .ok reg' ∧
      reg'.usedAt statelessComp.start = some
        (([] : List UsageRecord) ++ chainRecords [] ["a", "b", "c"]) ∧
      ((chainRecords [] ["a", "b", "c"]).head?).map UsageRecord.allNames
        = some (["a", "b", "c"].map some)) ∧
    (∃ reg'', markPropTypesAsUsed
        ⟨[], ⟨false, false, fun _ => false, true, some statelessComp⟩, true⟩
        (.member 1 (.identifier 2 "props") (.identifier 3 "a") false)
        [.member 4 (.identifier 5 "x")
          (.member 1 (.identifier 2 "props") (.identifier 3 "a") false) true,
          chainStop] [] statelessReg = .ok reg'' ∧
      reg''.usedAt statelessComp.start = some (([] : List UsageRecord) ++
        [{ name := "a", allNames := [some "a"],
           node := some (.identifier 3 "a") }]))) := by
  refine ⟨rfl, by decide, ?_⟩
  exact directChainPaths (fun _ => false) true true statelessComp ["b", "c"]
    "a" statelessReg ⟨statelessComp, [], false, false, []⟩ rfl rfl (by decide)

/-- C5: a function-like node is classified as a state-updater body iff some
scope on its chain is positionally the first argument of a call whose callee
is a `.setState`-shaped member access (under the start-offsets-identify-nodes
reading); the callback (second) argument of the concrete
`this.setState((state, props) => props.x, () => props.y)` call is not so
classified and the run records only the updater's `x`; in a confirmed updater
the property parameter marked for destructuring is the second parameter,
otherwise the first. -/
theorem setStateUpdaterClassification (ctx : EngineCtx)
    (hsf : ∀ sc ∈ ctx.scopes, startFaithful sc) :
    (inSetStateUpdater ctx = true ↔ ∃ sc ∈ ctx.scopes, specUpdaterScope sc) ∧
    inSetStateUpdater updaterCtx = true ∧
    inSetStateUpdater callbackCtx = false ∧
    runPathsAt (runTraversal setStateUtilsAt true setStateProg setStateReg) 71
      = some [[some "x"]] ∧
    (markPropTypesAsUsed selUpdCtx selUpdaterFn [] [] statelessReg).toOption.bind
      (fun r => (r.usedAt 43).map (List.map fun u => (u.name, u.allNames)))
      = some [("q", [some "q"])] ∧
    (markPropTypesAsUsed selPlainCtx selPlainFn [] [] statelessReg).toOption.bind
      (fun r => (r.usedAt 43).map (List.map fun u => (u.name, u.allNames)))
      = some [("r", [some "r"])] :=
  ⟨inSetStateUpdater_iff_spec ctx hsf, rfl, rfl, rfl, rfl, rfl⟩

/-- C5 (witness): the context at the updater argument satisfies the
start-faithfulness side condition, and there the classification holds. -/
theorem setStateUpdaterClassification_witness :
    (∀ sc ∈ updaterCtx.scopes, startFaithful sc) ∧
    ((inSetStateUpdater updaterCtx = true ↔
        ∃ sc ∈ updaterCtx.scopes, specUpdaterScope sc) ∧
      inSetStateUpdater updaterCtx = true ∧
      inSetStateUpdater callbackCtx = false ∧
      runPathsAt (runTraversal setStateUtilsAt true setStateProg setStateReg) 71
        = some [[some "x"]] ∧
      (markPropTypesAsUsed selUpdCtx selUpdaterFn [] []
          statelessReg).toOption.bind
        (fun r => (r.usedAt 43).map (List.map fun u => (u.name, u.allNames)))
        = some [("q", [some "q"])] ∧
      (markPropTypesAsUsed selPlainCtx selPlainFn [] []
          statelessReg).toOption.bind
        (fun r => (r.usedAt 43).map (List.map fun u => (u.name, u.allNames)))
        = some [("r", [some "r"])]) := by
  have hs : updaterCtx.scopes =
      [⟨setStateUpdaterFn, some setStateCall⟩,
       ⟨setStateMethodFn, some (.methodDefinition 72 "method"
         (.identifier 91 "doIt") setStateMethodFn)⟩,
       ⟨setStateProg, none⟩] := rfl
  have hsf : ∀ sc ∈ updaterCtx.scopes, startFaithful sc := by
    rw [hs]
    intro sc hsc
    simp only [List.mem_cons, List.not_mem_nil, or_false] at hsc
    rcases hsc with rfl | rfl | rfl
    · exact ⟨fun _ => rfl, fun _ => rfl⟩
    · exact trivial
    · exact trivial
  exact ⟨hsf, setStateUpdaterClassification updaterCtx hsf⟩

/-- C7: the suppress flag is monotone: a successful `markPropTypesAsUsed`
call and a successful traversal-handler dispatch (`visitNode`) each preserve
every component's `ignoreUnusedPropTypesValidation = true`, for every
well-keyed registry whose unregistered-parent states have no registered
candidate on the visited chain. -/
theorem suppressFlagMonotone :
    (∀ (ctx : EngineCtx) (node : Node) (ancestors : List Node)
      (parentNames : List (Option String)) (reg reg' : Registry),
      markPropTypesAsUsed ctx node ancestors parentNames reg = .ok reg' →
      reg.wellKeyed = true →
      (reg.getC ctx.utils.getParentComponent = none →
        ∀ m ∈ node :: ancestors, reg.lookupK m.start = none) →
      ∀ k, reg.flagAt k = some true → reg'.flagAt k = some true) ∧
    (∀ (U : UtilsAt) (async : Bool) (reg reg' : Registry) (node : Node)
      (ancestors : List Node),
      visitNode U async reg node ancestors = .ok reg' →
      reg.wellKeyed = true →
      (reg.getC (U node ancestors).getParentComponent = none →
        ∀ m ∈ node :: ancestors, reg.lookupK m.start = none) →
      ∀ k, reg.flagAt k = some true → reg'.flagAt k = some true) := by
  constructor
  · intro ctx node ancestors parentNames reg reg' h hw hcoh
    exact (mark_StateStep ctx node ancestors parentNames reg reg' h).2.2 hw hcoh
  · intro U async reg reg' node ancestors h hw hcoh
    exact (visitNode_StateStep U async reg reg' node ancestors h).2.2 hw hcoh

/-- C7 (witness): a concrete monotone step — marking `props[x]` over a
registry whose component already carries the flag keeps the flag. -/
theorem suppressFlagMonotone_witness :
    ∃ reg', markPropTypesAsUsed statelessCtx computedAccess [] [] flagReg
        = .ok reg' ∧ reg'.flagAt 43 = some true := by
  refine ⟨flagReg, rfl, ?_⟩
  refine suppressFlagMonotone.1 statelessCtx computedAccess [] [] flagReg
    flagReg rfl rfl ?_ 43 rfl
  intro hnone
  rw [show Registry.getC flagReg statelessCtx.utils.getParentComponent
      = some ⟨statelessComp, [], true, false, []⟩ from rfl] at hnone
  exact Option.noConfusion hnone

/-- C10: visiting a `JSXSpreadAttribute` merges only the suppress flag into
the enclosing component's registry entry: it sets
`ignoreUnusedPropTypesValidation` to true at the component's key, leaves the
accumulated `usedPropTypes` there unchanged, and touches no other key. -/
theorem jsxSpreadMergesOnlyFlag (U : UtilsAt) (async : Bool) (reg : Registry)
    (s : Nat) (a : Node) (ancestors : List Node) (pk : Node) (comp : Component)
    (hpk : (U (.jsxSpreadAttribute s a) ancestors).getParentComponent = some pk)
    (hlook : reg.lookupK pk.start = some comp)
    (hcn : comp.node.start = pk.start) :
    ∃ reg', visitNode U async reg (.jsxSpreadAttribute s a) ancestors
        = .ok reg' ∧
      reg'.usedAt pk.start = some comp.usedPropTypes ∧
      reg'.flagAt pk.start = some true ∧
      ∀ j, j ≠ pk.start → reg'.lookupK j = reg.lookupK j := by
  have hcomp : reg.getC
      ((U (.jsxSpreadAttribute s a) ancestors).getParentComponent)
      = some comp := by
    rw [hpk]
    simpa [Registry.getC] using hlook
  refine ⟨reg.setC comp.node ⟨none, some true⟩, ?_, ?_, ?_, ?_⟩
  · simp [visitNode, hcomp]
  · rw [Registry.usedAt, lookupK_setC, if_pos hcn.symm, hlook]
    simp [SetFields.apply]
  · rw [Registry.flagAt, lookupK_setC, if_pos hcn.symm, hlook]
    simp [SetFields.apply]
  · intro j hj
    exact lookupK_setC_other _ _ _ _ (by rw [hcn]; exact hj)

/-- C10 (witness): the spread attribute visited in the registered `render`
class sets that component's flag, keeps its records, touches no other key. -/
theorem jsxSpreadMergesOnlyFlag_witness :
    (renderUtils jsxNode []).getParentComponent = some renderClass ∧
    renderReg.lookupK renderClass.start
        = some ⟨renderClass, [], false, false, []⟩ ∧
    (∃ reg', visitNode renderUtils true renderReg jsxNode [] = .ok reg' ∧
      reg'.usedAt renderClass.start = some [] ∧
      reg'.flagAt renderClass.start = some true ∧
      ∀ j, j ≠ renderClass.start → reg'.lookupK j = renderReg.lookupK j) :=
  ⟨rfl, rfl, jsxSpreadMergesOnlyFlag renderUtils true renderReg 130
    (.identifier 131 "stuff") [] renderClass ⟨renderClass, [], false, false, []⟩
    rfl rfl rfl⟩

end UsedPropTypes
